import Mathlib

/-!
# Gshare branch predictor: a shallow embedding of `src/gshare.cc`

The predictor keeps one global history register per hardware thread and a table of
saturating counters that is indexed by the masked history register.  Every member
function of `GshareBP` in `src/gshare.cc` is rendered below as a Lean function on an
explicit state record that carries the data members of the C++ object.

Modelling conventions.

* Unsigned machine integers are natural numbers.  The history register is always masked
  with `historyRegisterMask` immediately after the left shift, so the wrap-around of the
  shift in a machine word of width `w` is invisible as soon as the mask fits in `w` bits
  (lemma `shift_mask_wrap_irrelevant`).  The constant `~ULL(1)` of `btbUpdate` is the
  64-bit value `2^64 - 2`.
* The constructor parameters are the ones the configuration allows: a table size of at
  least one and a counter width of at least one (`globalPredictorSize - 1` and
  `globalCtrBits - 1` are evaluated on unsigned integers in the source).
* `globalHistory` and `globalCtrs` are `std::vector`s; they are lists here.  Thread ids
  are expected to be below `numThreads`, as indexing a vector out of range is undefined.
* The `void *` record handle is an `Option BPHistory`: `none` is the null pointer and
  `some r` points to a record holding `r`.  Where the lifetime of the records matters,
  the members are rendered a second time on top of the first (`lookupMem`,
  `uncondBranchMem`, `updateMem`, `squashMem`) with an explicit record storage `Heap`, in
  which `new` takes a fresh address and `delete` empties the cell; a handle is then an
  optional address.
* `fatal`, a failed `assert` and the dereference of a null handle end the call with a
  `Fault` and no resulting state.
* The parameters `inst` and `corrTarget` of `update` are not read by the source and are
  left out; the branch address is kept as a parameter although the source never reads it.
-/

namespace Gshare

/-- Hardware thread identifier (`ThreadID`). -/
abbrev ThreadID := Nat

/-- Instruction address (`Addr`). -/
abbrev Addr := Nat

/-- Ways in which a call can end without producing a state. -/
inductive Fault where
  /-- The call reached `fatal(...)`. -/
  | fatal
  /-- An `assert(...)` did not hold. -/
  | assertion
  /-- A null record handle was dereferenced. -/
  | nullDeref
  /-- A record that was already deleted was used through a stale handle. -/
  | useAfterFree
deriving DecidableEq, Repr

/-- Modelled from the spec: the counter type `SatCounter`, which is declared outside
`src/`.  The spec describes a counter of bit width `C` whose value is bounded to
`[-(2^(C-1)), 2^(C-1) - 1]`, that starts at `0`, whose reward is an increment clamped at
the maximum representable value and whose penalty is a decrement clamped at the minimum
representable value. -/
structure SatCounter where
  /-- Bit width `C` of the counter. -/
  bits : Nat
  /-- Current value. -/
  counter : Int
deriving DecidableEq, Repr

namespace SatCounter

/-- Modelled from the spec: the maximum representable value `2^(C-1) - 1` for width `C`. -/
def maxVal (c : SatCounter) : Int := 2 ^ (c.bits - 1) - 1

/-- Modelled from the spec: the minimum representable value `-(2^(C-1))` for width `C`. -/
def minVal (c : SatCounter) : Int := -(2 ^ (c.bits - 1))

/-- Modelled from the spec: a counter as `SatCounter(bits)` builds it, starting at `0`. -/
def init (bits : Nat) : SatCounter := { bits := bits, counter := 0 }

/-- Modelled from the spec: `operator++`, an increment clamped at the maximum. -/
def increment (c : SatCounter) : SatCounter :=
  if c.counter < c.maxVal then { c with counter := c.counter + 1 } else c

/-- Modelled from the spec: `operator--`, a decrement clamped at the minimum. -/
def decrement (c : SatCounter) : SatCounter :=
  if c.minVal < c.counter then { c with counter := c.counter - 1 } else c

/-- The counter value lies in the saturation range of its width. -/
def InRange (c : SatCounter) : Prop := c.minVal ≤ c.counter ∧ c.counter ≤ c.maxVal

end SatCounter

/-- Modelled from the spec: `mask(nbits)` of `base/bitfield.hh`, which is not under
`src/`; the spec gives `historyMask = (1<<H) - 1`. -/
def mask (nbits : Nat) : Nat := (1 <<< nbits) - 1

/-- The `~ULL(1)` constant of `btbUpdate`: all 64 bits set except bit 0. -/
def notULL1 : Nat := 2 ^ 64 - 2

/-- Record `BPHistory` created by every prediction. -/
structure BPHistory where
  /-- History register of the thread just before the prediction. -/
  globalHistory : Nat
  /-- Direction that was predicted. -/
  globalPredTaken : Bool
deriving DecidableEq, Repr

/-- Constructor parameters `GshareBPParams` read by the constructor. -/
structure GshareBPParams where
  /-- Number of counters of the table. -/
  globalPredictorSize : Nat
  /-- Bit width of every counter. -/
  globalCtrBits : Nat
  /-- Number of hardware threads. -/
  numThreads : Nat
  /-- Bit width of every history register. -/
  globalHistoryBits : Nat
deriving DecidableEq, Repr

/-- Data members of a `GshareBP` object. -/
structure GshareBP where
  /-- Number of counters of the table. -/
  globalPredictorSize : Nat
  /-- Bit width of every counter. -/
  globalCtrBits : Nat
  /-- Table of saturating counters. -/
  globalCtrs : List SatCounter
  /-- History registers, one per thread. -/
  globalHistory : List Nat
  /-- Bit width of every history register. -/
  globalHistoryBits : Nat
  /-- Mask that turns a history value into a table index. -/
  globalHistoryMask : Nat
  /-- Mask that keeps the low `globalHistoryBits` bits of a history register. -/
  historyRegisterMask : Nat
  /-- Threshold above which a counter predicts taken. -/
  globalThreshold : Nat
deriving DecidableEq, Repr

namespace GshareBP

/-- Read `globalHistory[tid]`. -/
def hist (s : GshareBP) (tid : ThreadID) : Nat := s.globalHistory.getD tid 0

/-- Assign `globalHistory[tid] = v`. -/
def setHist (s : GshareBP) (tid : ThreadID) (v : Nat) : GshareBP :=
  { s with globalHistory := s.globalHistory.set tid v }

/-- Read `globalCtrs[idx]`; an index outside the table yields a fresh counter. -/
def ctr (s : GshareBP) (idx : Nat) : SatCounter :=
  match s.globalCtrs.get? idx with
  | some c => c
  | none => SatCounter.init s.globalCtrBits

/-- Assign `globalCtrs[idx] = c`. -/
def setCtr (s : GshareBP) (idx : Nat) (c : SatCounter) : GshareBP :=
  { s with globalCtrs := s.globalCtrs.set idx c }

/-- Constructor `GshareBP::GshareBP`: derives the masks and the threshold, and ends with
`fatal` when the table mask exceeds the history mask. -/
def construct (params : GshareBPParams) : Except Fault GshareBP :=
  let globalHistoryMask := params.globalPredictorSize - 1
  let historyRegisterMask := mask params.globalHistoryBits
  if globalHistoryMask > historyRegisterMask then
    .error .fatal
  else
    .ok
      { globalPredictorSize := params.globalPredictorSize
        globalCtrBits := params.globalCtrBits
        globalCtrs := List.replicate params.globalPredictorSize
          (SatCounter.init params.globalCtrBits)
        globalHistory := List.replicate params.numThreads 0
        globalHistoryBits := params.globalHistoryBits
        globalHistoryMask := globalHistoryMask
        historyRegisterMask := historyRegisterMask
        globalThreshold := (1 <<< (params.globalCtrBits - 1)) - 1 }

/-- The informational notice of the constructor: more history bits than the table needs. -/
def constructInforms (params : GshareBPParams) : Bool :=
  decide (params.globalPredictorSize - 1 < mask params.globalHistoryBits)

/-- Member `updateGlobalHistTaken`: shift a `1` into the history register, then mask. -/
def updateGlobalHistTaken (s : GshareBP) (tid : ThreadID) : GshareBP :=
  let s1 := s.setHist tid ((s.hist tid <<< 1) ||| 1)
  s1.setHist tid (s1.hist tid &&& s1.historyRegisterMask)

/-- Member `updateGlobalHistNotTaken`: shift a `0` into the history register, then mask. -/
def updateGlobalHistNotTaken (s : GshareBP) (tid : ThreadID) : GshareBP :=
  let s1 := s.setHist tid (s.hist tid <<< 1)
  s1.setHist tid (s1.hist tid &&& s1.historyRegisterMask)

/-- Member `btbUpdate`: and the history register with the mask whose bit 0 is cleared.
The handle parameter is passed by reference and is not written. -/
def btbUpdate (s : GshareBP) (tid : ThreadID) (_branch_addr : Addr)
    (bp_history : Option BPHistory) : Option BPHistory × GshareBP :=
  (bp_history, s.setHist tid (s.hist tid &&& (s.historyRegisterMask &&& notULL1)))

/-- Member `lookup`: returns the prediction, the new record and the new state. -/
def lookup (s : GshareBP) (tid : ThreadID) (_branch_addr : Addr) :
    Bool × BPHistory × GshareBP :=
  let global_prediction : Bool :=
    decide ((s.globalThreshold : Int) < (s.ctr (s.hist tid &&& s.globalHistoryMask)).counter)
  let history : BPHistory :=
    { globalHistory := s.hist tid, globalPredTaken := global_prediction }
  if global_prediction then
    (true, history, s.updateGlobalHistTaken tid)
  else
    (false, history, s.updateGlobalHistNotTaken tid)

/-- Member `uncondBranch`: returns the new record and the new state. -/
def uncondBranch (s : GshareBP) (tid : ThreadID) (_pc : Addr) : BPHistory × GshareBP :=
  let history : BPHistory := { globalHistory := s.hist tid, globalPredTaken := true }
  (history, s.updateGlobalHistTaken tid)

/-- Member `update`. -/
def update (s : GshareBP) (tid : ThreadID) (_branch_addr : Addr) (taken : Bool)
    (bp_history : Option BPHistory) (squashed : Bool) : Except Fault GshareBP :=
  match bp_history with
  | none => .error .assertion
  | some history =>
    if squashed then
      let s1 := s.setHist tid ((history.globalHistory <<< 1) ||| taken.toNat)
      .ok (s1.setHist tid (s1.hist tid &&& s1.historyRegisterMask))
    else
      let global_predictor_idx := history.globalHistory &&& s.globalHistoryMask
      if taken then
        .ok (s.setCtr global_predictor_idx (s.ctr global_predictor_idx).increment)
      else
        .ok (s.setCtr global_predictor_idx (s.ctr global_predictor_idx).decrement)

/-- Member `squash`: the handle is dereferenced without a check. -/
def squash (s : GshareBP) (tid : ThreadID) (bp_history : Option BPHistory) :
    Except Fault GshareBP :=
  match bp_history with
  | none => .error .nullDeref
  | some history => .ok (s.setHist tid history.globalHistory)

end GshareBP

/-- Storage of the `BPHistory` objects made by `new BPHistory`: cell `a` holds the record
at address `a`, and `none` once `delete` has released it. -/
structure Heap where
  /-- The cells, by address. -/
  cells : List (Option BPHistory)
deriving DecidableEq, Repr

/-- A `void *` record handle that carries an address: `none` is the null pointer. -/
abbrev Handle := Option Nat

namespace Heap

/-- The record a handle address points to, when it is outstanding (made and not yet
deleted). -/
def read (m : Heap) (a : Nat) : Option BPHistory :=
  match m.cells.get? a with
  | some (some r) => some r
  | _ => none

/-- Allocation `new BPHistory` filled with `r`: returns the address and the new storage. -/
def alloc (m : Heap) (r : BPHistory) : Nat × Heap :=
  (m.cells.length, { cells := m.cells ++ [some r] })

/-- Release `delete history` of the record at address `a`. -/
def free (m : Heap) (a : Nat) : Heap := { cells := m.cells.set a none }

end Heap

/-- How a call on the predictor and its record storage ends: the object and the storage
at the end of the call, and the fault that ended it, if any.  Every fault point of
`update` and `squash` (the `assert` and the first read through the handle) comes before
the first assignment of the function, so a call that ends in a fault ends with the
object and the storage it started with. -/
structure Outcome where
  /-- The predictor object at the end of the call. -/
  bp : GshareBP
  /-- The record storage at the end of the call. -/
  mem : Heap
  /-- The fault that ended the call, `none` when the call returned. -/
  fault : Option Fault
deriving DecidableEq, Repr

namespace GshareBP

/-- Member `lookup` with its record storage: the record is allocated by `new BPHistory`
and its address is passed back through `bp_history`. -/
def lookupMem (s : GshareBP) (m : Heap) (tid : ThreadID) (branch_addr : Addr) :
    Bool × Handle × GshareBP × Heap :=
  ((s.lookup tid branch_addr).1, some (m.alloc (s.lookup tid branch_addr).2.1).1,
    (s.lookup tid branch_addr).2.2, (m.alloc (s.lookup tid branch_addr).2.1).2)

/-- Member `uncondBranch` with its record storage. -/
def uncondBranchMem (s : GshareBP) (m : Heap) (tid : ThreadID) (pc : Addr) :
    Handle × GshareBP × Heap :=
  (some (m.alloc (s.uncondBranch tid pc).1).1, (s.uncondBranch tid pc).2,
    (m.alloc (s.uncondBranch tid pc).1).2)

/-- Member `update` with its record storage: `assert(bp_history)`, then the record is
read through the handle; the squashed branch returns before `delete history`, the
resolving branch ends with `delete history`. -/
def updateMem (s : GshareBP) (m : Heap) (tid : ThreadID) (branch_addr : Addr)
    (taken : Bool) (bp_history : Handle) (squashed : Bool) : Outcome :=
  match bp_history with
  | none => { bp := s, mem := m, fault := some .assertion }
  | some a =>
    match m.read a with
    | none => { bp := s, mem := m, fault := some .useAfterFree }
    | some history =>
      match s.update tid branch_addr taken (some history) squashed with
      | .error e => { bp := s, mem := m, fault := some e }
      | .ok s1 =>
        if squashed then
          { bp := s1, mem := m, fault := none }
        else
          { bp := s1, mem := m.free a, fault := none }

/-- Member `squash` with its record storage: the record is read through the handle
without a check, then `delete history`. -/
def squashMem (s : GshareBP) (m : Heap) (tid : ThreadID) (bp_history : Handle) : Outcome :=
  match bp_history with
  | none => { bp := s, mem := m, fault := some .nullDeref }
  | some a =>
    match m.read a with
    | none => { bp := s, mem := m, fault := some .useAfterFree }
    | some history =>
      match s.squash tid (some history) with
      | .error e => { bp := s, mem := m, fault := some e }
      | .ok s1 => { bp := s1, mem := m.free a, fault := none }

end GshareBP

/-- The configuration of the worked example: 16 counters of width 2, one thread, 4
history bits. -/
def exampleParams : GshareBPParams :=
  { globalPredictorSize := 16, globalCtrBits := 2, numThreads := 1, globalHistoryBits := 4 }

/-- The predictor that the constructor builds from `exampleParams`. -/
def exampleFresh : GshareBP :=
  { globalPredictorSize := 16
    globalCtrBits := 2
    globalCtrs := List.replicate 16 (SatCounter.init 2)
    globalHistory := [0]
    globalHistoryBits := 4
    globalHistoryMask := 15
    historyRegisterMask := 15
    globalThreshold := 1 }

/-- The state of the worked example after its first branch was resolved as taken. -/
def exampleResolved : GshareBP :=
  exampleFresh.setCtr 0 { bits := 2, counter := 1 }

/-- One call of the predictor interface, with its arguments. -/
inductive Call where
  /-- A call of `lookup(tid, branch_addr, bp_history)`. -/
  | lookup (tid : ThreadID) (branch_addr : Addr)
  /-- A call of `uncondBranch(tid, pc, bp_history)`. -/
  | uncondBranch (tid : ThreadID) (pc : Addr)
  /-- A call of `btbUpdate(tid, branch_addr, bp_history)`. -/
  | btbUpdate (tid : ThreadID) (branch_addr : Addr) (bp_history : Option BPHistory)
  /-- A call of `update(tid, branch_addr, taken, bp_history, squashed, ...)`. -/
  | update (tid : ThreadID) (branch_addr : Addr) (taken : Bool)
      (bp_history : Option BPHistory) (squashed : Bool)
  /-- A call of `squash(tid, bp_history)`. -/
  | squash (tid : ThreadID) (bp_history : Option BPHistory)
deriving DecidableEq, Repr

/-- A predictor together with the records its predictions have handed out so far. -/
structure Sys where
  /-- The predictor object. -/
  bp : GshareBP
  /-- Records returned by `lookup` and `uncondBranch`, newest first. -/
  issued : List BPHistory
deriving DecidableEq, Repr

/-- Run one call on the predictor and remember the record a prediction returns. -/
def exec (σ : Sys) : Call → Except Fault Sys
  | .lookup tid a =>
    .ok { bp := (σ.bp.lookup tid a).2.2, issued := (σ.bp.lookup tid a).2.1 :: σ.issued }
  | .uncondBranch tid a =>
    .ok { bp := (σ.bp.uncondBranch tid a).2, issued := (σ.bp.uncondBranch tid a).1 :: σ.issued }
  | .btbUpdate tid a h =>
    .ok { σ with bp := (σ.bp.btbUpdate tid a h).2 }
  | .update tid a taken h squashed =>
    match σ.bp.update tid a taken h squashed with
    | .ok s => .ok { σ with bp := s }
    | .error e => .error e
  | .squash tid h =>
    match σ.bp.squash tid h with
    | .ok s => .ok { σ with bp := s }
    | .error e => .error e

/-- Run a sequence of calls from left to right; the first fault ends the run. -/
def execAll (σ : Sys) : List Call → Except Fault Sys
  | [] => .ok σ
  | c :: cs =>
    match exec σ c with
    | .ok σ1 => execAll σ1 cs
    | .error e => .error e

/-- The record handle of a resolving call, when the call passes a record. -/
def Call.record : Call → Option BPHistory
  | .update _ _ _ h _ => h
  | .squash _ h => h
  | _ => none

/-- Check that every record passed to `update` or `squash` during the run was returned
earlier in the run (or before it) by `lookup` or `uncondBranch`. -/
def usesIssuedRecords (σ : Sys) : List Call → Bool
  | [] => true
  | c :: cs =>
    (match c.record with
      | some r => decide (r ∈ σ.issued)
      | none => true) &&
    (match exec σ c with
      | .ok σ1 => usesIssuedRecords σ1 cs
      | .error _ => true)

/-- Every counter of the table has width `C` and holds a value of the saturation range
of that width. -/
def GshareBP.CountersInRange (C : Nat) (s : GshareBP) : Prop :=
  s.globalCtrBits = C ∧ ∀ c ∈ s.globalCtrs, c.bits = C ∧ c.InRange

/-- The history mask is `m`, and every history register and every snapshot of an issued
record is at most `m`. -/
def Sys.HistoriesMasked (m : Nat) (σ : Sys) : Prop :=
  σ.bp.historyRegisterMask = m ∧ (∀ h ∈ σ.bp.globalHistory, h ≤ m) ∧
    ∀ r ∈ σ.issued, r.globalHistory ≤ m

/-- A run of the worked example: three predictions on thread 0, which all read counter 0
and leave the history at 0, each of them then resolved as taken. -/
def exampleCalls : List Call :=
  [.lookup 0 64, .lookup 0 68, .lookup 0 72,
    .update 0 72 true (some ⟨0, false⟩) false, .update 0 68 true (some ⟨0, false⟩) false,
    .update 0 64 true (some ⟨0, false⟩) false]

/-- A run on thread 0: an unconditional branch and a `lookup` are predicted, the
`lookup` is rolled back by `squash` after a target-buffer miss, the unconditional branch
is replayed as not taken by a squashed `update`, and a new unconditional branch follows. -/
def exampleHistoryCalls : List Call :=
  [.uncondBranch 0 64, .lookup 0 68, .btbUpdate 0 68 none, .squash 0 (some ⟨1, false⟩),
    .update 0 64 false (some ⟨0, true⟩) true, .uncondBranch 0 72]

/-- A record storage with an outstanding record at address 0, a released one at address
1 and an outstanding one at address 2. -/
def sampleHeap : Heap := { cells := [some ⟨5, false⟩, none, some ⟨10, true⟩] }

/-- A sequence of predictions on thread `tid`: each entry is an address together with
the kind of call, `true` for `uncondBranch` and `false` for `lookup`. -/
def predictionCalls (tid : ThreadID) (ps : List (Bool × Addr)) : List Call :=
  ps.map fun q => if q.1 then Call.uncondBranch tid q.2 else Call.lookup tid q.2

/-- The calls that squash the given records on thread `tid`, in the order of the list. -/
def squashCalls (tid : ThreadID) (rs : List BPHistory) : List Call :=
  rs.map fun r => Call.squash tid (some r)

/-- A predictor state with two threads and four counters of width three, used to
instantiate the theorems below. -/
def sampleBP : GshareBP :=
  { globalPredictorSize := 4
    globalCtrBits := 3
    globalCtrs := [⟨3, 0⟩, ⟨3, 3⟩, ⟨3, -4⟩, ⟨3, 2⟩]
    globalHistory := [5, 10]
    globalHistoryBits := 4
    globalHistoryMask := 3
    historyRegisterMask := 15
    globalThreshold := 3 }

/-- The state `sampleBP` with the value 4 stored in counter 1, above the threshold 3, so
that a `lookup` of thread 0 (history `0b0101`, index 1) predicts taken. -/
def sampleTakenBP : GshareBP := sampleBP.setCtr 1 { bits := 3, counter := 4 }

end Gshare

namespace Gshare
namespace GshareBP

@[simp] theorem setHist_globalCtrs (s : GshareBP) (tid v : Nat) :
    (s.setHist tid v).globalCtrs = s.globalCtrs := rfl

@[simp] theorem setHist_historyRegisterMask (s : GshareBP) (tid v : Nat) :
    (s.setHist tid v).historyRegisterMask = s.historyRegisterMask := rfl

@[simp] theorem setHist_globalHistoryMask (s : GshareBP) (tid v : Nat) :
    (s.setHist tid v).globalHistoryMask = s.globalHistoryMask := rfl

@[simp] theorem setHist_globalThreshold (s : GshareBP) (tid v : Nat) :
    (s.setHist tid v).globalThreshold = s.globalThreshold := rfl

@[simp] theorem setHist_globalCtrBits (s : GshareBP) (tid v : Nat) :
    (s.setHist tid v).globalCtrBits = s.globalCtrBits := rfl

@[simp] theorem setHist_globalHistoryBits (s : GshareBP) (tid v : Nat) :
    (s.setHist tid v).globalHistoryBits = s.globalHistoryBits := rfl

@[simp] theorem setHist_globalPredictorSize (s : GshareBP) (tid v : Nat) :
    (s.setHist tid v).globalPredictorSize = s.globalPredictorSize := rfl

@[simp] theorem setHist_length (s : GshareBP) (tid v : Nat) :
    (s.setHist tid v).globalHistory.length = s.globalHistory.length := by
  simp [setHist]

theorem hist_setHist_self (s : GshareBP) (tid v : Nat) (h : tid < s.globalHistory.length) :
    (s.setHist tid v).hist tid = v := by
  simp [hist, setHist, List.getD_eq_getElem?_getD, List.getElem?_set, h]

theorem hist_setHist_ne (s : GshareBP) (tid t v : Nat) (h : tid ≠ t) :
    (s.setHist tid v).hist t = s.hist t := by
  simp [hist, setHist, List.getD_eq_getElem?_getD, List.getElem?_set, h]

theorem setHist_setHist (s : GshareBP) (tid v w : Nat) :
    (s.setHist tid v).setHist tid w = s.setHist tid w := by
  simp [setHist]

theorem hist_updateGlobalHistTaken (s : GshareBP) (tid : Nat)
    (h : tid < s.globalHistory.length) :
    (s.updateGlobalHistTaken tid).hist tid
      = ((s.hist tid <<< 1) ||| 1) &&& s.historyRegisterMask := by
  simp [updateGlobalHistTaken, hist_setHist_self, h]

theorem hist_updateGlobalHistNotTaken (s : GshareBP) (tid : Nat)
    (h : tid < s.globalHistory.length) :
    (s.updateGlobalHistNotTaken tid).hist tid
      = (s.hist tid <<< 1) &&& s.historyRegisterMask := by
  simp [updateGlobalHistNotTaken, hist_setHist_self, h]

end GshareBP
end Gshare

namespace Gshare
namespace GshareBP

theorem lookup_fst (s : GshareBP) (tid : ThreadID) (a : Addr) :
    (s.lookup tid a).1
      = decide ((s.globalThreshold : Int)
          < (s.ctr (s.hist tid &&& s.globalHistoryMask)).counter) := by
  unfold lookup
  by_cases h : (s.globalThreshold : Int)
      < (s.ctr (s.hist tid &&& s.globalHistoryMask)).counter <;> simp [h]

theorem lookup_record (s : GshareBP) (tid : ThreadID) (a : Addr) :
    (s.lookup tid a).2.1
      = { globalHistory := s.hist tid, globalPredTaken := (s.lookup tid a).1 } := by
  unfold lookup
  by_cases h : (s.globalThreshold : Int)
      < (s.ctr (s.hist tid &&& s.globalHistoryMask)).counter <;> simp [h]

theorem lookup_state (s : GshareBP) (tid : ThreadID) (a : Addr) :
    (s.lookup tid a).2.2
      = if (s.lookup tid a).1 then s.updateGlobalHistTaken tid
        else s.updateGlobalHistNotTaken tid := by
  unfold lookup
  by_cases h : (s.globalThreshold : Int)
      < (s.ctr (s.hist tid &&& s.globalHistoryMask)).counter <;> simp [h]

@[simp] theorem updateGlobalHistTaken_globalCtrs (s : GshareBP) (tid : ThreadID) :
    (s.updateGlobalHistTaken tid).globalCtrs = s.globalCtrs := rfl

@[simp] theorem updateGlobalHistNotTaken_globalCtrs (s : GshareBP) (tid : ThreadID) :
    (s.updateGlobalHistNotTaken tid).globalCtrs = s.globalCtrs := rfl

end GshareBP

open GshareBP

/-- C1: for every state, thread and address, `lookup` returns the prediction
`threshold < c`, where `c` is the value stored in the counter table at index
`history[tid] & tableIndexMask`, returns a record holding the history value from before
the call together with that prediction, sets `history[tid]` to
`((old << 1) | p) & historyMask`, and leaves the counter table as it was. -/
theorem lookup_contract (s : GshareBP) (tid : ThreadID) (address : Addr) (c : SatCounter)
    (htid : tid < s.globalHistory.length)
    (hc : s.globalCtrs[s.hist tid &&& s.globalHistoryMask]? = some c) :
    (s.lookup tid address).1 = decide ((s.globalThreshold : Int) < c.counter) ∧
      (s.lookup tid address).2.1
        = { globalHistory := s.hist tid,
            globalPredTaken := decide ((s.globalThreshold : Int) < c.counter) } ∧
      (s.lookup tid address).2.2.hist tid
        = ((s.hist tid <<< 1)
            ||| (if decide ((s.globalThreshold : Int) < c.counter) then 1 else 0))
            &&& s.historyRegisterMask ∧
      (s.lookup tid address).2.2.globalCtrs = s.globalCtrs := by
  have hp : (s.lookup tid address).1 = decide ((s.globalThreshold : Int) < c.counter) := by
    rw [lookup_fst]
    simp [ctr, hc]
  refine ⟨hp, ?_, ?_, ?_⟩
  · rw [lookup_record, hp]
  · rw [lookup_state, hp]
    cases decide ((s.globalThreshold : Int) < c.counter)
    · simpa using hist_updateGlobalHistNotTaken s tid htid
    · simpa using hist_updateGlobalHistTaken s tid htid
  · rw [lookup_state]
    cases (s.lookup tid address).1 <;> simp

/-- Instances of C1 on thread 0 (history `0b0101`, index 1): in `sampleTakenBP` counter 1
holds 4, above the threshold 3, so the prediction is taken and the history becomes
`0b1011`; in `sampleBP` counter 1 holds 3, which is not above the threshold, so the
prediction is not-taken and the history becomes `0b1010`. -/
theorem lookup_contract_witness :
    ((0 < sampleTakenBP.globalHistory.length ∧
          sampleTakenBP.globalCtrs[sampleTakenBP.hist 0 &&& sampleTakenBP.globalHistoryMask]?
            = some ⟨3, 4⟩) ∧
        ((sampleTakenBP.lookup 0 77).1 = true ∧
          (sampleTakenBP.lookup 0 77).2.1 = { globalHistory := 5, globalPredTaken := true } ∧
          (sampleTakenBP.lookup 0 77).2.2.hist 0 = 11 ∧
          (sampleTakenBP.lookup 0 77).2.2.globalCtrs = sampleTakenBP.globalCtrs)) ∧
      ((0 < sampleBP.globalHistory.length ∧
          sampleBP.globalCtrs[sampleBP.hist 0 &&& sampleBP.globalHistoryMask]?
            = some ⟨3, 3⟩) ∧
        ((sampleBP.lookup 0 77).1 = false ∧
          (sampleBP.lookup 0 77).2.1 = { globalHistory := 5, globalPredTaken := false } ∧
          (sampleBP.lookup 0 77).2.2.hist 0 = 10 ∧
          (sampleBP.lookup 0 77).2.2.globalCtrs = sampleBP.globalCtrs)) :=
  ⟨⟨⟨by decide, by decide⟩,
      lookup_contract sampleTakenBP 0 77 ⟨3, 4⟩ (by decide) (by decide)⟩,
    ⟨⟨by decide, by decide⟩,
      lookup_contract sampleBP 0 77 ⟨3, 3⟩ (by decide) (by decide)⟩⟩

end Gshare

namespace Gshare
namespace GshareBP

@[simp] theorem setCtr_globalHistory (s : GshareBP) (idx : Nat) (c : SatCounter) :
    (s.setCtr idx c).globalHistory = s.globalHistory := rfl

@[simp] theorem setCtr_historyRegisterMask (s : GshareBP) (idx : Nat) (c : SatCounter) :
    (s.setCtr idx c).historyRegisterMask = s.historyRegisterMask := rfl

@[simp] theorem setCtr_globalCtrBits (s : GshareBP) (idx : Nat) (c : SatCounter) :
    (s.setCtr idx c).globalCtrBits = s.globalCtrBits := rfl

@[simp] theorem setCtr_globalThreshold (s : GshareBP) (idx : Nat) (c : SatCounter) :
    (s.setCtr idx c).globalThreshold = s.globalThreshold := rfl

theorem ctr_of_lt (s : GshareBP) (idx : Nat) (h : idx < s.globalCtrs.length) :
    s.globalCtrs[idx]? = some (s.ctr idx) := by
  simp [ctr, List.getElem?_eq_getElem h]

theorem getElem?_setCtr (s : GshareBP) (idx i : Nat) (f : SatCounter → SatCounter) :
    (s.setCtr idx (f (s.ctr idx))).globalCtrs[i]?
      = if i = idx then (s.globalCtrs[i]?).map f else s.globalCtrs[i]? := by
  by_cases hi : i = idx
  · subst hi
    by_cases hlt : i < s.globalCtrs.length
    · simp [setCtr, List.getElem?_set, hlt, ctr, List.getElem?_eq_getElem hlt]
    · have hge : s.globalCtrs.length ≤ i := Nat.le_of_not_lt hlt
      simp [setCtr, List.getElem?_set, hlt, List.getElem?_eq_none hge]
  · have hne : idx ≠ i := fun h => hi h.symm
    simp [setCtr, List.getElem?_set, hi, hne]

end GshareBP

open GshareBP

/-- C2: for every state, thread and present record, `update` with `squashed = false`
succeeds, replaces the counter at index `r.globalHistory & tableIndexMask` by its
saturating increment when `taken` holds and by its saturating decrement otherwise, keeps
every other counter and the size of the table, and keeps the history register of every
thread. -/
theorem update_resolved_contract (s : GshareBP) (tid : ThreadID) (addr : Addr)
    (taken : Bool) (r : BPHistory) :
    ∃ s1, s.update tid addr taken (some r) false = .ok s1 ∧
      (∀ i, s1.globalCtrs[i]?
        = if i = r.globalHistory &&& s.globalHistoryMask then
            (s.globalCtrs[i]?).map
              (if taken then SatCounter.increment else SatCounter.decrement)
          else s.globalCtrs[i]?) ∧
      s1.globalCtrs.length = s.globalCtrs.length ∧
      s1.globalHistory = s.globalHistory := by
  cases taken
  · refine ⟨s.setCtr (r.globalHistory &&& s.globalHistoryMask)
      (s.ctr (r.globalHistory &&& s.globalHistoryMask)).decrement,
      by simp [update], ?_, by simp [setCtr], rfl⟩
    intro i
    simpa using getElem?_setCtr s (r.globalHistory &&& s.globalHistoryMask) i
      SatCounter.decrement
  · refine ⟨s.setCtr (r.globalHistory &&& s.globalHistoryMask)
      (s.ctr (r.globalHistory &&& s.globalHistoryMask)).increment,
      by simp [update], ?_, by simp [setCtr], rfl⟩
    intro i
    simpa using getElem?_setCtr s (r.globalHistory &&& s.globalHistoryMask) i
      SatCounter.increment

end Gshare

namespace Gshare

open GshareBP

/-- C3: for every state, thread and present record, `update` with `squashed = true`
succeeds and sets `history[tid]` to `((r.globalHistory << 1) | taken) & historyMask`; the
outcome does not depend on the value `history[tid]` held at call time (a state that
differs only in `history[tid]` ends in the very same state), and the counter table is
left as it was. -/
theorem update_squashed_contract (s : GshareBP) (tid : ThreadID) (addr : Addr)
    (taken : Bool) (r : BPHistory) (htid : tid < s.globalHistory.length) :
    ∃ s1, s.update tid addr taken (some r) true = .ok s1 ∧
      s1.hist tid
        = ((r.globalHistory <<< 1) ||| (if taken then 1 else 0)) &&& s.historyRegisterMask ∧
      s1.globalCtrs = s.globalCtrs ∧
      (∀ v, (s.setHist tid v).update tid addr taken (some r) true = .ok s1) := by
  refine ⟨(s.setHist tid ((r.globalHistory <<< 1) ||| taken.toNat)).setHist tid
      ((r.globalHistory <<< 1 ||| taken.toNat) &&& s.historyRegisterMask), ?_, ?_, rfl, ?_⟩
  · simp [update, hist_setHist_self, htid]
  · rw [hist_setHist_self _ _ _ (by simpa using htid)]
    cases taken <;> simp
  · intro v
    simp [update, hist_setHist_self, htid, setHist_setHist]

/-- Instance of C3 on `sampleBP`: thread 0 replays a taken branch on the snapshot
`0b0110`. -/
theorem update_squashed_contract_witness :
    0 < sampleBP.globalHistory.length ∧
      ∃ s1, sampleBP.update 0 64 true (some ⟨6, false⟩) true = .ok s1 ∧
        s1.hist 0 = ((6 <<< 1) ||| (if true then 1 else 0)) &&& sampleBP.historyRegisterMask ∧
        s1.globalCtrs = sampleBP.globalCtrs ∧
        (∀ v, (sampleBP.setHist 0 v).update 0 64 true (some ⟨6, false⟩) true = .ok s1) :=
  ⟨by decide, update_squashed_contract sampleBP 0 64 true ⟨6, false⟩ (by decide)⟩

end Gshare

namespace Gshare
namespace GshareBP

@[simp] theorem updateGlobalHistTaken_length (s : GshareBP) (tid : ThreadID) :
    (s.updateGlobalHistTaken tid).globalHistory.length = s.globalHistory.length := by
  simp [updateGlobalHistTaken]

@[simp] theorem updateGlobalHistNotTaken_length (s : GshareBP) (tid : ThreadID) :
    (s.updateGlobalHistNotTaken tid).globalHistory.length = s.globalHistory.length := by
  simp [updateGlobalHistNotTaken]

@[simp] theorem lookup_length (s : GshareBP) (tid : ThreadID) (a : Addr) :
    (s.lookup tid a).2.2.globalHistory.length = s.globalHistory.length := by
  rw [lookup_state]
  cases (s.lookup tid a).1 <;> simp

@[simp] theorem uncondBranch_length (s : GshareBP) (tid : ThreadID) (a : Addr) :
    (s.uncondBranch tid a).2.globalHistory.length = s.globalHistory.length := by
  simp [uncondBranch]

@[simp] theorem btbUpdate_length (s : GshareBP) (tid : ThreadID) (a : Addr)
    (h : Option BPHistory) :
    (s.btbUpdate tid a h).2.globalHistory.length = s.globalHistory.length := by
  simp [btbUpdate]

theorem update_length {s s1 : GshareBP} {tid : ThreadID} {a : Addr} {taken : Bool}
    {h : Option BPHistory} {squashed : Bool}
    (hu : s.update tid a taken h squashed = .ok s1) :
    s1.globalHistory.length = s.globalHistory.length := by
  cases h with
  | none => simp [update] at hu
  | some r =>
    cases squashed <;> cases taken <;> simp [update] at hu <;> subst hu <;> simp

theorem squash_length {s s1 : GshareBP} {tid : ThreadID} {h : Option BPHistory}
    (hs : s.squash tid h = .ok s1) :
    s1.globalHistory.length = s.globalHistory.length := by
  cases h with
  | none => simp [squash] at hs
  | some r => simp [squash] at hs; subst hs; simp

end GshareBP

theorem exec_length {σ σ1 : Sys} {c : Call} (h : exec σ c = .ok σ1) :
    σ1.bp.globalHistory.length = σ.bp.globalHistory.length := by
  cases c with
  | lookup tid a => simp [exec] at h; subst h; simp
  | uncondBranch tid a => simp [exec] at h; subst h; simp
  | btbUpdate tid a r => simp [exec] at h; subst h; simp
  | update tid a taken r squashed =>
    simp only [exec] at h
    cases hu : σ.bp.update tid a taken r squashed with
    | error e => simp [hu] at h
    | ok s1 =>
      simp [hu] at h
      subst h
      exact GshareBP.update_length hu
  | squash tid r =>
    simp only [exec] at h
    cases hs : σ.bp.squash tid r with
    | error e => simp [hs] at h
    | ok s1 =>
      simp [hs] at h
      subst h
      exact GshareBP.squash_length hs

theorem execAll_length {cs : List Call} {σ σ1 : Sys} (h : execAll σ cs = .ok σ1) :
    σ1.bp.globalHistory.length = σ.bp.globalHistory.length := by
  induction cs generalizing σ with
  | nil => simp [execAll] at h; subst h; rfl
  | cons c cs ih =>
    simp only [execAll] at h
    cases hc : exec σ c with
    | error e => simp [hc] at h
    | ok σ2 =>
      simp [hc] at h
      rw [ih h, exec_length hc]

open GshareBP

theorem squash_some (s : GshareBP) (tid : ThreadID) (r : BPHistory)
    (htid : tid < s.globalHistory.length) :
    ∃ s1, s.squash tid (some r) = .ok s1 ∧ s1.hist tid = r.globalHistory ∧
      s1.globalCtrs = s.globalCtrs :=
  ⟨s.setHist tid r.globalHistory, rfl, hist_setHist_self s tid _ htid, rfl⟩

/-- C4: for every state, thread and record, `squash` succeeds, leaves `history[tid]`
equal to the snapshot of the record and changes no counter.  This holds in whatever state
a sequence of calls ends after the record was created; in particular, squashing the
record of a `lookup` after any such sequence brings `history[tid]` back to the value it
had before that `lookup`. -/
theorem squash_contract (s : GshareBP) (tid : ThreadID) (r : BPHistory)
    (htid : tid < s.globalHistory.length) :
    (∃ s1, s.squash tid (some r) = .ok s1 ∧ s1.hist tid = r.globalHistory ∧
        s1.globalCtrs = s.globalCtrs) ∧
      (∀ (issued : List BPHistory) (cs : List Call) (σ : Sys),
        execAll ⟨s, issued⟩ cs = .ok σ →
          ∃ s1, σ.bp.squash tid (some r) = .ok s1 ∧ s1.hist tid = r.globalHistory ∧
            s1.globalCtrs = σ.bp.globalCtrs) ∧
      (∀ (a : Addr) (cs : List Call) (σ : Sys),
        execAll ⟨(s.lookup tid a).2.2, [(s.lookup tid a).2.1]⟩ cs = .ok σ →
          ∃ s1, σ.bp.squash tid (some (s.lookup tid a).2.1) = .ok s1 ∧
            s1.hist tid = s.hist tid ∧ s1.globalCtrs = σ.bp.globalCtrs) := by
  refine ⟨squash_some s tid r htid, ?_, ?_⟩
  · intro issued cs σ hrun
    have hlen := execAll_length hrun
    exact squash_some σ.bp tid r (by rw [hlen]; exact htid)
  · intro a cs σ hrun
    have hlen := execAll_length hrun
    have h := squash_some σ.bp tid (s.lookup tid a).2.1 (by rw [hlen]; simpa using htid)
    rw [lookup_record] at h
    rw [lookup_record]
    exact h

/-- Instance of C4 on `sampleBP`: thread 1 is rolled back to the snapshot `0b0111`. -/
theorem squash_contract_witness :
    1 < sampleBP.globalHistory.length ∧
      ((∃ s1, sampleBP.squash 1 (some ⟨7, true⟩) = .ok s1 ∧ s1.hist 1 = 7 ∧
          s1.globalCtrs = sampleBP.globalCtrs) ∧
        (∀ (issued : List BPHistory) (cs : List Call) (σ : Sys),
          execAll ⟨sampleBP, issued⟩ cs = .ok σ →
            ∃ s1, σ.bp.squash 1 (some ⟨7, true⟩) = .ok s1 ∧ s1.hist 1 = 7 ∧
              s1.globalCtrs = σ.bp.globalCtrs) ∧
        (∀ (a : Addr) (cs : List Call) (σ : Sys),
          execAll ⟨(sampleBP.lookup 1 a).2.2, [(sampleBP.lookup 1 a).2.1]⟩ cs = .ok σ →
            ∃ s1, σ.bp.squash 1 (some (sampleBP.lookup 1 a).2.1) = .ok s1 ∧
              s1.hist 1 = sampleBP.hist 1 ∧ s1.globalCtrs = σ.bp.globalCtrs)) :=
  ⟨by decide, squash_contract sampleBP 1 ⟨7, true⟩ (by decide)⟩

end Gshare

namespace Gshare

open GshareBP

/-- C9: for every state, thread and address, `uncondBranch` returns a record holding the
history value from before the call and `predictedTaken = true`, whatever the counters
hold, sets `history[tid]` to `((old << 1) | 1) & historyMask`, and leaves the counter
table as it was. -/
theorem uncondBranch_contract (s : GshareBP) (tid : ThreadID) (address : Addr)
    (htid : tid < s.globalHistory.length) :
    (s.uncondBranch tid address).1 = { globalHistory := s.hist tid, globalPredTaken := true } ∧
      (s.uncondBranch tid address).2.hist tid
        = ((s.hist tid <<< 1) ||| 1) &&& s.historyRegisterMask ∧
      (s.uncondBranch tid address).2.globalCtrs = s.globalCtrs ∧
      (∀ ctrs : List SatCounter,
        ({ s with globalCtrs := ctrs }.uncondBranch tid address).1
            = (s.uncondBranch tid address).1 ∧
          ({ s with globalCtrs := ctrs }.uncondBranch tid address).2.globalHistory
            = (s.uncondBranch tid address).2.globalHistory) :=
  ⟨rfl, hist_updateGlobalHistTaken s tid htid, rfl, fun _ => ⟨rfl, rfl⟩⟩

/-- Instance of C9 on `sampleBP`, thread 0 (history `0b0101` becomes `0b1011`). -/
theorem uncondBranch_contract_witness :
    0 < sampleBP.globalHistory.length ∧
      ((sampleBP.uncondBranch 0 12).1 = { globalHistory := 5, globalPredTaken := true } ∧
        (sampleBP.uncondBranch 0 12).2.hist 0 = 11 ∧
        (sampleBP.uncondBranch 0 12).2.globalCtrs = sampleBP.globalCtrs ∧
        (∀ ctrs : List SatCounter,
          ({ sampleBP with globalCtrs := ctrs }.uncondBranch 0 12).1
              = (sampleBP.uncondBranch 0 12).1 ∧
            ({ sampleBP with globalCtrs := ctrs }.uncondBranch 0 12).2.globalHistory
              = (sampleBP.uncondBranch 0 12).2.globalHistory)) :=
  ⟨by decide, uncondBranch_contract sampleBP 0 12 (by decide)⟩

end Gshare

namespace Gshare

theorem mask_eq (n : Nat) : mask n = 2 ^ n - 1 := by
  simp [mask, Nat.shiftLeft_eq]

theorem testBit_notULL1 (i : Nat) : notULL1.testBit i = (decide (1 ≤ i) && decide (i < 64)) := by
  have h : notULL1 = (2 ^ 63 - 1) <<< 1 := by decide
  rw [h, Nat.testBit_shiftLeft, Nat.testBit_two_pow_sub_one]
  by_cases h1 : 1 ≤ i
  · have : (i - 1 < 63) ↔ i < 64 := by omega
    simp [h1, this]
  · simp [h1]

theorem testBit_eq_false_of_lt {h n i : Nat} (hh : h < 2 ^ n) (hi : n ≤ i) :
    h.testBit i = false :=
  Nat.testBit_lt_two_pow (Nat.lt_of_lt_of_le hh (Nat.pow_le_pow_right (by decide) hi))

/-- Clearing bit 0 with the mask of `btbUpdate`, bit by bit. -/
theorem testBit_clear_lsb (h n : Nat) (hh : h < 2 ^ n) (hn : n ≤ 64) (i : Nat) :
    (h &&& (mask n &&& notULL1)).testBit i = (decide (0 < i) && h.testBit i) := by
  rw [Nat.testBit_and, Nat.testBit_and, mask_eq, Nat.testBit_two_pow_sub_one,
    testBit_notULL1]
  by_cases hi : i < n
  · have h64 : i < 64 := Nat.lt_of_lt_of_le hi hn
    by_cases h0 : 0 < i
    · have h1 : 1 ≤ i := h0
      simp [hi, h64, h0, h1]
    · have h1 : ¬ 1 ≤ i := h0
      simp [h0, h1]
  · have hb : h.testBit i = false := testBit_eq_false_of_lt hh (Nat.le_of_not_lt hi)
    simp [hb]

theorem clear_lsb_eq (h n : Nat) (hh : h < 2 ^ n) (hn : n ≤ 64) :
    h &&& (mask n &&& notULL1) = 2 * (h / 2) := by
  apply Nat.eq_of_testBit_eq
  intro i
  rw [testBit_clear_lsb h n hh hn i]
  have e : 2 * (h / 2) = (h >>> 1) <<< 1 := by
    simp [Nat.shiftLeft_eq, Nat.shiftRight_eq_div_pow, Nat.mul_comm]
  rw [e, Nat.testBit_shiftLeft, Nat.testBit_shiftRight]
  by_cases h0 : 0 < i
  · have h1 : i ≥ 1 := h0
    have e2 : 1 + (i - 1) = i := by omega
    simp [h0, h1, e2]
  · have h1 : ¬ i ≥ 1 := h0
    simp [h0, h1]

open GshareBP

/-- C10: in a state whose history mask is `mask H` for a register width `H` of at most 64
bits and whose `history[tid]` is below `2^H`, `btbUpdate` clears bit 0 of `history[tid]`
and keeps every other bit in place, so the new value is the old one with its least
significant bit set to 0 (twice the half of the old value); it changes no counter and
leaves the record handle untouched. -/
theorem btbUpdate_contract (s : GshareBP) (tid : ThreadID) (address : Addr)
    (bp_history : Option BPHistory) (htid : tid < s.globalHistory.length)
    (hmask : s.historyRegisterMask = mask s.globalHistoryBits)
    (hbits : s.globalHistoryBits ≤ 64)
    (hhist : s.hist tid < 2 ^ s.globalHistoryBits) :
    ((s.btbUpdate tid address bp_history).2.hist tid).testBit 0 = false ∧
      (∀ i, 0 < i →
        ((s.btbUpdate tid address bp_history).2.hist tid).testBit i
          = (s.hist tid).testBit i) ∧
      (s.btbUpdate tid address bp_history).2.hist tid = 2 * (s.hist tid / 2) ∧
      (s.btbUpdate tid address bp_history).2.globalCtrs = s.globalCtrs ∧
      (s.btbUpdate tid address bp_history).1 = bp_history := by
  have hnew : (s.btbUpdate tid address bp_history).2.hist tid
      = s.hist tid &&& (mask s.globalHistoryBits &&& notULL1) := by
    simp [btbUpdate, hist_setHist_self, htid, hmask]
  refine ⟨?_, ?_, ?_, rfl, rfl⟩
  · rw [hnew, testBit_clear_lsb _ _ hhist hbits]
    simp
  · intro i hi
    rw [hnew, testBit_clear_lsb _ _ hhist hbits]
    simp [hi]
  · rw [hnew, clear_lsb_eq _ _ hhist hbits]

/-- Instance of C10 on `sampleBP`, thread 0: the history `0b0101` becomes `0b0100`. -/
theorem btbUpdate_contract_witness :
    (0 < sampleBP.globalHistory.length ∧
        sampleBP.historyRegisterMask = mask sampleBP.globalHistoryBits ∧
        sampleBP.globalHistoryBits ≤ 64 ∧
        sampleBP.hist 0 < 2 ^ sampleBP.globalHistoryBits) ∧
      (((sampleBP.btbUpdate 0 12 none).2.hist 0).testBit 0 = false ∧
        (∀ i, 0 < i →
          ((sampleBP.btbUpdate 0 12 none).2.hist 0).testBit i = (sampleBP.hist 0).testBit i) ∧
        (sampleBP.btbUpdate 0 12 none).2.hist 0 = 4 ∧
        (sampleBP.btbUpdate 0 12 none).2.globalCtrs = sampleBP.globalCtrs ∧
        (sampleBP.btbUpdate 0 12 none).1 = none) :=
  ⟨⟨by decide, by decide, by decide, by decide⟩,
    btbUpdate_contract sampleBP 0 12 none (by decide) (by decide) (by decide) (by decide)⟩

end Gshare

namespace Gshare

open GshareBP

theorem construct_eq_error_iff (p : GshareBPParams) (e : Fault) :
    construct p = .error e ↔
      e = .fatal ∧ p.globalPredictorSize - 1 > mask p.globalHistoryBits := by
  unfold construct
  by_cases h : p.globalPredictorSize - 1 > mask p.globalHistoryBits
  · simp [h, eq_comm]
  · simp [h]

theorem construct_ok_fields {p : GshareBPParams} {s : GshareBP} (h : construct p = .ok s) :
    p.globalPredictorSize - 1 ≤ mask p.globalHistoryBits ∧
      s.globalPredictorSize = p.globalPredictorSize ∧
      s.globalCtrBits = p.globalCtrBits ∧
      s.globalCtrs = List.replicate p.globalPredictorSize (SatCounter.init p.globalCtrBits) ∧
      s.globalHistory = List.replicate p.numThreads 0 ∧
      s.globalHistoryBits = p.globalHistoryBits ∧
      s.globalHistoryMask = p.globalPredictorSize - 1 ∧
      s.historyRegisterMask = mask p.globalHistoryBits ∧
      s.globalThreshold = (1 <<< (p.globalCtrBits - 1)) - 1 := by
  unfold construct at h
  by_cases hgt : p.globalPredictorSize - 1 > mask p.globalHistoryBits
  · simp [hgt] at h
  · simp [hgt] at h
    subst h
    exact ⟨Nat.le_of_not_lt hgt, rfl, rfl, rfl, rfl, rfl, rfl, rfl, rfl⟩

/-- C6: construction with table size `N ≥ 1` and history width `H` ends in `fatal`
exactly when `tableIndexMask = N - 1` is greater than `historyMask = 2^H - 1`, it has no
other way to fail, and it succeeds exactly when `N ≤ 2^H`; every predictor that is
constructed has these two masks, with `tableIndexMask ≤ historyMask`. -/
theorem construct_contract (p : GshareBPParams) (hN : 1 ≤ p.globalPredictorSize) :
    (construct p = .error .fatal ↔
        p.globalPredictorSize - 1 > 2 ^ p.globalHistoryBits - 1) ∧
      (∀ e, construct p = .error e → e = .fatal) ∧
      ((∃ s, construct p = .ok s) ↔ p.globalPredictorSize ≤ 2 ^ p.globalHistoryBits) ∧
      (∀ s, construct p = .ok s →
        s.globalHistoryMask = p.globalPredictorSize - 1 ∧
          s.historyRegisterMask = 2 ^ p.globalHistoryBits - 1 ∧
          s.globalHistoryMask ≤ s.historyRegisterMask) := by
  have hpos : 0 < 2 ^ p.globalHistoryBits := Nat.two_pow_pos _
  refine ⟨?_, ?_, ?_, ?_⟩
  · rw [construct_eq_error_iff, mask_eq]
    simp
  · intro e he
    exact ((construct_eq_error_iff p e).1 he).1
  · constructor
    · rintro ⟨s, hs⟩
      have h := (construct_ok_fields hs).1
      rw [mask_eq] at h
      omega
    · intro h
      cases hc : construct p with
      | ok s => exact ⟨s, rfl⟩
      | error e =>
        have h2 := ((construct_eq_error_iff p e).1 hc).2
        rw [mask_eq] at h2
        omega
  · intro s hs
    obtain ⟨hle, -, -, -, -, -, hm, hr, -⟩ := construct_ok_fields hs
    rw [mask_eq] at hle hr
    exact ⟨hm, hr, by rw [hm, hr]; exact hle⟩

/-- Instance of C6: a table of 32 counters with 4 history bits is refused, the table of
16 counters with 4 history bits of the worked example is constructed. -/
theorem construct_contract_witness :
    (1 ≤ 32 ∧ construct ⟨32, 2, 1, 4⟩ = .error .fatal) ∧
      (1 ≤ exampleParams.globalPredictorSize ∧
        (exampleFresh.globalHistoryMask = exampleParams.globalPredictorSize - 1 ∧
          exampleFresh.historyRegisterMask = 2 ^ exampleParams.globalHistoryBits - 1 ∧
          exampleFresh.globalHistoryMask ≤ exampleFresh.historyRegisterMask)) :=
  ⟨⟨by decide, (construct_contract ⟨32, 2, 1, 4⟩ (by decide)).1.2 (by decide)⟩,
    ⟨by decide, (construct_contract exampleParams (by decide)).2.2.2 exampleFresh rfl⟩⟩

end Gshare

namespace Gshare

open GshareBP

theorem exampleParams_construct : construct exampleParams = .ok exampleFresh := by
  rfl

theorem exampleFresh_resolve :
    (exampleFresh.lookup 0 64).2.2.update 0 64 true (some (exampleFresh.lookup 0 64).2.1) false
      = .ok exampleResolved := by
  rfl

/-- C8 as stated does not hold: with `H = 4`, `tableSize = 16`, `C = 2` the threshold is
`2^(C-1) - 1 = 1`, so after one reward counter 0 holds `1`, which is not above the
threshold, and the second `lookup` does not predict taken. -/
theorem spec_example_counterexample :
    construct exampleParams = .ok exampleFresh ∧
      ¬ ((exampleFresh.lookup 0 64).1 = false ∧
        (exampleFresh.lookup 0 64).2.2.hist 0 = 0 ∧
        ∃ s2, (exampleFresh.lookup 0 64).2.2.update 0 64 true
              (some (exampleFresh.lookup 0 64).2.1) false = .ok s2 ∧
          (s2.ctr 0).counter = 1 ∧
          (s2.lookup 0 64).1 = true ∧
          (s2.lookup 0 64).2.2.hist 0 = 1) := by
  refine ⟨exampleParams_construct, ?_⟩
  rintro ⟨-, -, s2, hs2, -, hp, -⟩
  rw [exampleFresh_resolve] at hs2
  have e : exampleResolved = s2 := Except.ok.inj hs2
  subst e
  exact absurd hp (by decide)

/-- C8, amended: with `H = 4`, `tableSize = 16`, `C = 2` (threshold `1`) and a freshly
constructed predictor (`history[0] = 0`, all counters `0`), the first `lookup(0, addr)`
predicts not-taken and leaves `history[0] = 0b0000`; `update` with `taken = true` and
`squashed = false` on its record makes counter 0 equal to `1`; the next
`lookup(0, addr)` predicts not-taken again and leaves `history[0] = 0b0000`. -/
theorem spec_example_trace :
    construct exampleParams = .ok exampleFresh ∧
      exampleFresh.globalThreshold = 1 ∧
      exampleFresh.hist 0 = 0 ∧
      (∀ i, i < 16 → (exampleFresh.ctr i).counter = 0) ∧
      (exampleFresh.lookup 0 64).1 = false ∧
      (exampleFresh.lookup 0 64).2.2.hist 0 = 0 ∧
      ∃ s2, (exampleFresh.lookup 0 64).2.2.update 0 64 true
            (some (exampleFresh.lookup 0 64).2.1) false = .ok s2 ∧
        (s2.ctr 0).counter = 1 ∧
        (s2.lookup 0 64).1 = false ∧
        (s2.lookup 0 64).2.2.hist 0 = 0 := by
  refine ⟨exampleParams_construct, by decide, by decide, by decide, by decide, by decide,
    exampleResolved, exampleFresh_resolve, by decide, by decide, by decide⟩

end Gshare

namespace Gshare
namespace SatCounter

@[simp] theorem increment_bits (c : SatCounter) : c.increment.bits = c.bits := by
  unfold increment; split <;> rfl

@[simp] theorem decrement_bits (c : SatCounter) : c.decrement.bits = c.bits := by
  unfold decrement; split <;> rfl

theorem maxVal_eq_of_bits {c d : SatCounter} (h : c.bits = d.bits) : c.maxVal = d.maxVal := by
  simp [maxVal, h]

theorem minVal_eq_of_bits {c d : SatCounter} (h : c.bits = d.bits) : c.minVal = d.minVal := by
  simp [minVal, h]

theorem increment_counter (c : SatCounter) :
    c.increment.counter = if c.counter < c.maxVal then c.counter + 1 else c.counter := by
  unfold increment; split <;> rfl

theorem decrement_counter (c : SatCounter) :
    c.decrement.counter = if c.minVal < c.counter then c.counter - 1 else c.counter := by
  unfold decrement; split <;> rfl

theorem minVal_le_maxVal (c : SatCounter) : c.minVal ≤ 0 ∧ 0 ≤ c.maxVal := by
  have h : (0 : Int) < 2 ^ (c.bits - 1) := by positivity
  constructor <;> simp only [minVal, maxVal] <;> omega

theorem init_inRange (bits : Nat) : (init bits).InRange := by
  have h := minVal_le_maxVal (init bits)
  exact ⟨h.1, h.2⟩

theorem increment_inRange {c : SatCounter} (h : c.InRange) : c.increment.InRange := by
  have hM : c.increment.maxVal = c.maxVal := maxVal_eq_of_bits (increment_bits c)
  have hm : c.increment.minVal = c.minVal := minVal_eq_of_bits (increment_bits c)
  obtain ⟨h1, h2⟩ := h
  unfold InRange
  rw [hM, hm, increment_counter]
  split <;> constructor <;> omega

theorem decrement_inRange {c : SatCounter} (h : c.InRange) : c.decrement.InRange := by
  have hM : c.decrement.maxVal = c.maxVal := maxVal_eq_of_bits (decrement_bits c)
  have hm : c.decrement.minVal = c.minVal := minVal_eq_of_bits (decrement_bits c)
  obtain ⟨h1, h2⟩ := h
  unfold InRange
  rw [hM, hm, decrement_counter]
  split <;> constructor <;> omega

/-- Any number of consecutive increments climbs by one per step up to the maximum and
then stays there. -/
theorem iterate_increment {c : SatCounter} (h : c.InRange) (n : Nat) :
    (increment^[n] c).bits = c.bits ∧
      (increment^[n] c).counter = min (c.counter + n) c.maxVal := by
  obtain ⟨-, h2⟩ := h
  induction n with
  | zero => exact ⟨rfl, by simp; omega⟩
  | succ k ih =>
    obtain ⟨ihb, ihc⟩ := ih
    rw [Function.iterate_succ_apply']
    have hM : (increment^[k] c).maxVal = c.maxVal := maxVal_eq_of_bits ihb
    refine ⟨by rw [increment_bits, ihb], ?_⟩
    rw [increment_counter, hM, ihc]
    push_cast
    split <;> omega

/-- Any number of consecutive decrements descends by one per step down to the minimum
and then stays there. -/
theorem iterate_decrement {c : SatCounter} (h : c.InRange) (n : Nat) :
    (decrement^[n] c).bits = c.bits ∧
      (decrement^[n] c).counter = max (c.counter - n) c.minVal := by
  obtain ⟨h1, -⟩ := h
  induction n with
  | zero => exact ⟨rfl, by simp; omega⟩
  | succ k ih =>
    obtain ⟨ihb, ihc⟩ := ih
    rw [Function.iterate_succ_apply']
    have hm : (decrement^[k] c).minVal = c.minVal := minVal_eq_of_bits ihb
    refine ⟨by rw [decrement_bits, ihb], ?_⟩
    rw [decrement_counter, hm, ihc]
    push_cast
    split <;> omega

end SatCounter
end Gshare

namespace Gshare
namespace GshareBP

theorem ctr_inRange {C : Nat} {s : GshareBP} (h : s.CountersInRange C) (i : Nat) :
    (s.ctr i).bits = C ∧ (s.ctr i).InRange := by
  unfold ctr
  cases hg : s.globalCtrs.get? i with
  | none => exact ⟨h.1, SatCounter.init_inRange _⟩
  | some c => exact h.2 c (List.get?_mem hg)

theorem setCtr_countersInRange {C : Nat} {s : GshareBP} (h : s.CountersInRange C)
    (i : Nat) {c : SatCounter} (hb : c.bits = C) (hc : c.InRange) :
    (s.setCtr i c).CountersInRange C := by
  refine ⟨h.1, ?_⟩
  intro d hd
  rcases List.mem_or_eq_of_mem_set hd with hmem | heq
  · exact h.2 d hmem
  · subst heq
    exact ⟨hb, hc⟩

theorem countersInRange_of_eq {C : Nat} {s s1 : GshareBP} (h : s.CountersInRange C)
    (hb : s1.globalCtrBits = s.globalCtrBits) (hc : s1.globalCtrs = s.globalCtrs) :
    s1.CountersInRange C := by
  unfold CountersInRange
  rw [hb, hc]
  exact h

@[simp] theorem updateGlobalHistTaken_globalCtrBits (s : GshareBP) (tid : ThreadID) :
    (s.updateGlobalHistTaken tid).globalCtrBits = s.globalCtrBits := rfl

@[simp] theorem updateGlobalHistNotTaken_globalCtrBits (s : GshareBP) (tid : ThreadID) :
    (s.updateGlobalHistNotTaken tid).globalCtrBits = s.globalCtrBits := rfl

theorem lookup_globalCtrs (s : GshareBP) (tid : ThreadID) (a : Addr) :
    (s.lookup tid a).2.2.globalCtrs = s.globalCtrs := by
  rw [lookup_state]
  cases (s.lookup tid a).1 <;> simp

theorem lookup_globalCtrBits (s : GshareBP) (tid : ThreadID) (a : Addr) :
    (s.lookup tid a).2.2.globalCtrBits = s.globalCtrBits := by
  rw [lookup_state]
  cases (s.lookup tid a).1 <;> simp

theorem update_countersInRange {C : Nat} {s s1 : GshareBP} {tid : ThreadID} {a : Addr}
    {taken : Bool} {r : Option BPHistory} {squashed : Bool}
    (h : s.CountersInRange C) (hu : s.update tid a taken r squashed = .ok s1) :
    s1.CountersInRange C := by
  cases r with
  | none => simp [update] at hu
  | some r =>
    cases squashed
    · cases taken
      · simp [update] at hu
        subst hu
        have hc := ctr_inRange h (r.globalHistory &&& s.globalHistoryMask)
        exact setCtr_countersInRange h _ (by simpa using hc.1)
          (SatCounter.decrement_inRange hc.2)
      · simp [update] at hu
        subst hu
        have hc := ctr_inRange h (r.globalHistory &&& s.globalHistoryMask)
        exact setCtr_countersInRange h _ (by simpa using hc.1)
          (SatCounter.increment_inRange hc.2)
    · simp [update] at hu
      subst hu
      exact countersInRange_of_eq h rfl rfl

theorem squash_countersInRange {C : Nat} {s s1 : GshareBP} {tid : ThreadID}
    {r : Option BPHistory} (h : s.CountersInRange C) (hs : s.squash tid r = .ok s1) :
    s1.CountersInRange C := by
  cases r with
  | none => simp [squash] at hs
  | some r =>
    simp [squash] at hs
    subst hs
    exact countersInRange_of_eq h rfl rfl

theorem construct_countersInRange {p : GshareBPParams} {s : GshareBP}
    (h : construct p = .ok s) : s.CountersInRange p.globalCtrBits := by
  obtain ⟨-, -, hb, hc, -⟩ := construct_ok_fields h
  refine ⟨hb, ?_⟩
  intro c hmem
  rw [hc] at hmem
  have e := List.eq_of_mem_replicate hmem
  subst e
  exact ⟨rfl, SatCounter.init_inRange _⟩

end GshareBP

theorem exec_countersInRange {C : Nat} {σ σ1 : Sys} {c : Call}
    (h : σ.bp.CountersInRange C) (he : exec σ c = .ok σ1) : σ1.bp.CountersInRange C := by
  cases c with
  | lookup tid a =>
    simp [exec] at he; subst he
    exact GshareBP.countersInRange_of_eq h (GshareBP.lookup_globalCtrBits _ _ _)
      (GshareBP.lookup_globalCtrs _ _ _)
  | uncondBranch tid a =>
    simp [exec] at he; subst he
    exact GshareBP.countersInRange_of_eq h rfl rfl
  | btbUpdate tid a r =>
    simp [exec] at he; subst he
    exact GshareBP.countersInRange_of_eq h rfl rfl
  | update tid a taken r squashed =>
    simp only [exec] at he
    cases hu : σ.bp.update tid a taken r squashed with
    | error e => simp [hu] at he
    | ok s1 =>
      simp [hu] at he
      subst he
      exact GshareBP.update_countersInRange h hu
  | squash tid r =>
    simp only [exec] at he
    cases hs : σ.bp.squash tid r with
    | error e => simp [hs] at he
    | ok s1 =>
      simp [hs] at he
      subst he
      exact GshareBP.squash_countersInRange h hs

theorem execAll_countersInRange {C : Nat} {cs : List Call} {σ σ1 : Sys}
    (h : σ.bp.CountersInRange C) (he : execAll σ cs = .ok σ1) :
    σ1.bp.CountersInRange C := by
  induction cs generalizing σ with
  | nil => simp [execAll] at he; subst he; exact h
  | cons c cs ih =>
    simp only [execAll] at he
    cases hc : exec σ c with
    | error e => simp [hc] at he
    | ok σ2 =>
      simp [hc] at he
      exact ih (exec_countersInRange h hc) he

open GshareBP

/-- C5: in every state reached from a constructed predictor with counter width `C ≥ 1`
by any sequence of `lookup`, `uncondBranch`, `btbUpdate`, `update` and `squash` calls,
every counter of the table has a value in `[-(2^(C-1)), 2^(C-1) - 1]`; and `n`
consecutive rewards (penalties) of such a counter yield `min (v + n) (2^(C-1) - 1)`
(`max (v - n) (-(2^(C-1)))`), so they saturate and never wrap. -/
theorem counters_stay_in_range (p : GshareBPParams) (s0 : GshareBP) (cs : List Call)
    (σ : Sys) (hC : 1 ≤ p.globalCtrBits) (hinit : construct p = .ok s0)
    (hrun : execAll ⟨s0, []⟩ cs = .ok σ) :
    ∀ c ∈ σ.bp.globalCtrs,
      (-(2 ^ (p.globalCtrBits - 1) : Int) ≤ c.counter ∧
        c.counter ≤ 2 ^ (p.globalCtrBits - 1) - 1) ∧
      ∀ n : Nat,
        (SatCounter.increment^[n] c).counter
            = min (c.counter + n) (2 ^ (p.globalCtrBits - 1) - 1) ∧
          (SatCounter.decrement^[n] c).counter
            = max (c.counter - n) (-(2 ^ (p.globalCtrBits - 1))) := by
  have _ := hC
  have hinv : σ.bp.CountersInRange p.globalCtrBits :=
    execAll_countersInRange (construct_countersInRange hinit) hrun
  intro c hc
  obtain ⟨hb, hr⟩ := hinv.2 c hc
  have hi := fun n => (SatCounter.iterate_increment hr n).2
  have hd := fun n => (SatCounter.iterate_decrement hr n).2
  obtain ⟨h1, h2⟩ := hr
  simp only [SatCounter.minVal, SatCounter.maxVal, hb] at h1 h2 hi hd
  exact ⟨⟨h1, h2⟩, fun n => ⟨hi n, hd n⟩⟩

end Gshare

namespace Gshare

open GshareBP

/-- Instance of C5 on the worked example: after three rewards counter 0 rests at the
maximum `1` of width 2. -/
theorem counters_stay_in_range_witness :
    (1 ≤ exampleParams.globalCtrBits ∧ construct exampleParams = .ok exampleFresh ∧
        execAll ⟨exampleFresh, []⟩ exampleCalls
          = .ok ⟨exampleResolved, [⟨0, false⟩, ⟨0, false⟩, ⟨0, false⟩]⟩) ∧
      ∀ c ∈ exampleResolved.globalCtrs,
        (-(2 ^ (exampleParams.globalCtrBits - 1) : Int) ≤ c.counter ∧
          c.counter ≤ 2 ^ (exampleParams.globalCtrBits - 1) - 1) ∧
        ∀ n : Nat,
          (SatCounter.increment^[n] c).counter
              = min (c.counter + n) (2 ^ (exampleParams.globalCtrBits - 1) - 1) ∧
            (SatCounter.decrement^[n] c).counter
              = max (c.counter - n) (-(2 ^ (exampleParams.globalCtrBits - 1))) :=
  ⟨⟨by decide, rfl, rfl⟩,
    counters_stay_in_range exampleParams exampleFresh exampleCalls
      ⟨exampleResolved, [⟨0, false⟩, ⟨0, false⟩, ⟨0, false⟩]⟩ (by decide) rfl rfl⟩

end Gshare

namespace Gshare
namespace GshareBP

theorem hist_le_of_forall {m : Nat} {s : GshareBP} (h : ∀ x ∈ s.globalHistory, x ≤ m)
    (tid : ThreadID) : s.hist tid ≤ m := by
  unfold hist
  rw [List.getD_eq_getElem?_getD]
  cases hg : s.globalHistory[tid]? with
  | none => simp
  | some x => simpa using h x (List.getElem?_mem hg)

theorem setHist_forall_le {m : Nat} {s : GshareBP} (h : ∀ x ∈ s.globalHistory, x ≤ m)
    (tid : ThreadID) {v : Nat} (hv : v ≤ m) :
    ∀ x ∈ (s.setHist tid v).globalHistory, x ≤ m := by
  intro x hx
  rcases List.mem_or_eq_of_mem_set hx with hmem | heq
  · exact h x hmem
  · rw [heq]; exact hv

theorem updateGlobalHistTaken_forall_le {s : GshareBP}
    (h : ∀ x ∈ s.globalHistory, x ≤ s.historyRegisterMask) (tid : ThreadID) :
    ∀ x ∈ (s.updateGlobalHistTaken tid).globalHistory, x ≤ s.historyRegisterMask := by
  unfold updateGlobalHistTaken
  simp only [setHist_setHist, setHist_historyRegisterMask]
  exact setHist_forall_le h tid Nat.and_le_right

theorem updateGlobalHistNotTaken_forall_le {s : GshareBP}
    (h : ∀ x ∈ s.globalHistory, x ≤ s.historyRegisterMask) (tid : ThreadID) :
    ∀ x ∈ (s.updateGlobalHistNotTaken tid).globalHistory, x ≤ s.historyRegisterMask := by
  unfold updateGlobalHistNotTaken
  simp only [setHist_setHist, setHist_historyRegisterMask]
  exact setHist_forall_le h tid Nat.and_le_right

theorem lookup_historyRegisterMask (s : GshareBP) (tid : ThreadID) (a : Addr) :
    (s.lookup tid a).2.2.historyRegisterMask = s.historyRegisterMask := by
  rw [lookup_state]
  cases (s.lookup tid a).1 <;> rfl

theorem lookup_forall_le {s : GshareBP}
    (h : ∀ x ∈ s.globalHistory, x ≤ s.historyRegisterMask) (tid : ThreadID) (a : Addr) :
    ∀ x ∈ (s.lookup tid a).2.2.globalHistory, x ≤ s.historyRegisterMask := by
  rw [lookup_state]
  cases (s.lookup tid a).1
  · exact updateGlobalHistNotTaken_forall_le h tid
  · exact updateGlobalHistTaken_forall_le h tid

theorem update_histories {s s1 : GshareBP} {tid : ThreadID} {a : Addr} {taken : Bool}
    {r : Option BPHistory} {squashed : Bool}
    (h : ∀ x ∈ s.globalHistory, x ≤ s.historyRegisterMask)
    (hu : s.update tid a taken r squashed = .ok s1) :
    s1.historyRegisterMask = s.historyRegisterMask ∧
      ∀ x ∈ s1.globalHistory, x ≤ s.historyRegisterMask := by
  cases r with
  | none => simp [update] at hu
  | some r =>
    cases squashed
    · cases taken <;> simp [update] at hu <;> subst hu <;> exact ⟨rfl, h⟩
    · simp only [update, if_true, setHist_setHist, setHist_historyRegisterMask] at hu
      have e := Except.ok.inj hu
      subst e
      exact ⟨rfl, setHist_forall_le h tid Nat.and_le_right⟩

theorem squash_histories {s s1 : GshareBP} {tid : ThreadID} {r : BPHistory}
    (h : ∀ x ∈ s.globalHistory, x ≤ s.historyRegisterMask)
    (hr : r.globalHistory ≤ s.historyRegisterMask)
    (hs : s.squash tid (some r) = .ok s1) :
    s1.historyRegisterMask = s.historyRegisterMask ∧
      ∀ x ∈ s1.globalHistory, x ≤ s.historyRegisterMask := by
  have e : s.setHist tid r.globalHistory = s1 := Except.ok.inj hs
  subst e
  exact ⟨rfl, setHist_forall_le h tid hr⟩

end GshareBP

open GshareBP

theorem exec_historiesMasked {m : Nat} {σ σ1 : Sys} {c : Call} (h : σ.HistoriesMasked m)
    (hrec : ∀ r, c.record = some r → r ∈ σ.issued) (he : exec σ c = .ok σ1) :
    σ1.HistoriesMasked m := by
  obtain ⟨hm, hh, hi⟩ := h
  subst hm
  cases c with
  | lookup tid a =>
    simp [exec] at he; subst he
    refine ⟨lookup_historyRegisterMask _ _ _, lookup_forall_le hh tid a, ?_⟩
    intro r hr
    rcases List.mem_cons.1 hr with heq | hmem
    · rw [heq, lookup_record]
      exact hist_le_of_forall hh tid
    · exact hi r hmem
  | uncondBranch tid a =>
    simp [exec] at he; subst he
    refine ⟨rfl, updateGlobalHistTaken_forall_le hh tid, ?_⟩
    intro r hr
    rcases List.mem_cons.1 hr with heq | hmem
    · rw [heq]
      exact hist_le_of_forall hh tid
    · exact hi r hmem
  | btbUpdate tid a r =>
    simp [exec] at he; subst he
    exact ⟨rfl, setHist_forall_le hh tid
      (Nat.le_trans Nat.and_le_right Nat.and_le_left), hi⟩
  | update tid a taken r squashed =>
    simp only [exec] at he
    cases hu : σ.bp.update tid a taken r squashed with
    | error e => simp [hu] at he
    | ok s1 =>
      simp [hu] at he
      subst he
      obtain ⟨h1, h2⟩ := update_histories hh hu
      exact ⟨h1, h2, hi⟩
  | squash tid r =>
    simp only [exec] at he
    cases r with
    | none => simp [squash] at he
    | some r =>
      cases hs : σ.bp.squash tid (some r) with
      | error e => simp [hs] at he
      | ok s1 =>
        simp [hs] at he
        subst he
        obtain ⟨h1, h2⟩ := squash_histories hh (hi r (hrec r rfl)) hs
        exact ⟨h1, h2, hi⟩

theorem execAll_historiesMasked {m : Nat} {cs : List Call} {σ σ1 : Sys}
    (h : σ.HistoriesMasked m) (hproto : usesIssuedRecords σ cs = true)
    (he : execAll σ cs = .ok σ1) : σ1.HistoriesMasked m := by
  induction cs generalizing σ with
  | nil => simp [execAll] at he; subst he; exact h
  | cons c cs ih =>
    simp only [execAll] at he
    cases hc : exec σ c with
    | error e => simp [hc] at he
    | ok σ2 =>
      simp only [hc] at he
      simp only [usesIssuedRecords, hc, Bool.and_eq_true] at hproto
      refine ih (exec_historiesMasked h ?_ hc) hproto.2 he
      intro r hr
      have h1 := hproto.1
      simp only [hr, decide_eq_true_eq] at h1
      exact h1

theorem construct_historiesMasked {p : GshareBPParams} {s : GshareBP}
    (h : construct p = .ok s) : Sys.HistoriesMasked (mask p.globalHistoryBits) ⟨s, []⟩ := by
  obtain ⟨-, -, -, -, hh, -, -, hr, -⟩ := construct_ok_fields h
  refine ⟨hr, ?_, by simp⟩
  intro x hx
  rw [hh] at hx
  rw [List.eq_of_mem_replicate hx]
  exact Nat.zero_le _

/-- C7: in every state reached from a constructed predictor, whose histories are all 0,
by any sequence of `lookup`, `uncondBranch`, `btbUpdate`, `update` and `squash` calls in
which each record passed to `update` or `squash` was returned earlier by `lookup` or
`uncondBranch`, every `history[tid]` is less than `2^H` and equal to itself masked with
`historyMask`. -/
theorem histories_stay_masked (p : GshareBPParams) (s0 : GshareBP) (cs : List Call)
    (σ : Sys) (hinit : construct p = .ok s0)
    (hproto : usesIssuedRecords ⟨s0, []⟩ cs = true)
    (hrun : execAll ⟨s0, []⟩ cs = .ok σ) :
    (∀ tid, s0.hist tid = 0) ∧
      ∀ tid, σ.bp.hist tid < 2 ^ p.globalHistoryBits ∧
        σ.bp.hist tid &&& σ.bp.historyRegisterMask = σ.bp.hist tid := by
  constructor
  · intro tid
    have hh := (construct_ok_fields hinit).2.2.2.2.1
    simp only [hist, hh, List.getD_eq_getElem?_getD, List.getElem?_replicate]
    split <;> rfl
  · intro tid
    obtain ⟨hm, hh, -⟩ := execAll_historiesMasked (construct_historiesMasked hinit) hproto hrun
    have hle : σ.bp.hist tid ≤ mask p.globalHistoryBits := by
      rw [← hm]
      exact hist_le_of_forall (by rw [hm]; exact hh) tid
    have hpos : 0 < 2 ^ p.globalHistoryBits := Nat.two_pow_pos _
    rw [mask_eq] at hle
    have hlt : σ.bp.hist tid < 2 ^ p.globalHistoryBits := by omega
    refine ⟨hlt, ?_⟩
    rw [hm, mask_eq, Nat.and_pow_two_sub_one_eq_mod, Nat.mod_eq_of_lt hlt]

end Gshare

namespace Gshare

open GshareBP

/-- Instance of C7 on the worked example: the run `exampleHistoryCalls` follows the
record protocol and ends with `history[0] = 0b0001`. -/
theorem histories_stay_masked_witness :
    (construct exampleParams = .ok exampleFresh ∧
        usesIssuedRecords ⟨exampleFresh, []⟩ exampleHistoryCalls = true ∧
        execAll ⟨exampleFresh, []⟩ exampleHistoryCalls
          = .ok ⟨exampleFresh.setHist 0 1, [⟨0, true⟩, ⟨1, false⟩, ⟨0, true⟩]⟩) ∧
      ((∀ tid, exampleFresh.hist tid = 0) ∧
        ∀ tid, (exampleFresh.setHist 0 1).hist tid < 2 ^ exampleParams.globalHistoryBits ∧
          (exampleFresh.setHist 0 1).hist tid &&& (exampleFresh.setHist 0 1).historyRegisterMask
            = (exampleFresh.setHist 0 1).hist tid) :=
  ⟨⟨rfl, rfl, rfl⟩,
    histories_stay_masked exampleParams exampleFresh exampleHistoryCalls
      ⟨exampleFresh.setHist 0 1, [⟨0, true⟩, ⟨1, false⟩, ⟨0, true⟩]⟩ rfl rfl rfl⟩

end Gshare

namespace Gshare

/-- Wrap-around of the shifted history in a machine word of `w` bits cannot be seen
through a mask that fits in `w` bits. -/
theorem shift_mask_wrap_irrelevant (h b m w : Nat) (hm : m < 2 ^ w) :
    (((h <<< 1) ||| b) % 2 ^ w) &&& m = ((h <<< 1) ||| b) &&& m := by
  apply Nat.eq_of_testBit_eq
  intro i
  rw [Nat.testBit_and, Nat.testBit_and, Nat.testBit_mod_two_pow]
  by_cases hi : i < w
  · simp [hi]
  · have hb : m.testBit i = false := testBit_eq_false_of_lt hm (Nat.le_of_not_lt hi)
    simp [hb]

end Gshare

namespace Gshare
namespace GshareBP

theorem lookup_globalThreshold (s : GshareBP) (tid : ThreadID) (a : Addr) :
    (s.lookup tid a).2.2.globalThreshold = s.globalThreshold := by
  rw [lookup_state]
  cases (s.lookup tid a).1 <;> rfl

theorem update_globalThreshold {s s1 : GshareBP} {tid : ThreadID} {a : Addr} {taken : Bool}
    {r : Option BPHistory} {squashed : Bool}
    (hu : s.update tid a taken r squashed = .ok s1) :
    s1.globalThreshold = s.globalThreshold := by
  cases r with
  | none => simp [update] at hu
  | some r =>
    cases squashed <;> cases taken <;> simp [update] at hu <;> subst hu <;> rfl

theorem squash_globalThreshold {s s1 : GshareBP} {tid : ThreadID} {r : Option BPHistory}
    (hs : s.squash tid r = .ok s1) : s1.globalThreshold = s.globalThreshold := by
  cases r with
  | none => simp [squash] at hs
  | some r => simp [squash] at hs; subst hs; rfl

/-- With counters in the saturation range of width `C` and the threshold the constructor
derives for that width, no counter is above the threshold, so `lookup` predicts
not-taken. -/
theorem lookup_not_taken_of_inRange {C : Nat} {s : GshareBP} (h : s.CountersInRange C)
    (ht : s.globalThreshold = (1 <<< (C - 1)) - 1) (tid : ThreadID) (a : Addr) :
    (s.lookup tid a).1 = false := by
  rw [lookup_fst]
  obtain ⟨hb, -, hle⟩ := ctr_inRange h (s.hist tid &&& s.globalHistoryMask)
  have hpos : 0 < 2 ^ (C - 1) := Nat.two_pow_pos _
  have hcast : ((s.globalThreshold : Nat) : Int) = 2 ^ (C - 1) - 1 := by
    rw [ht, Nat.shiftLeft_eq, Nat.one_mul, Nat.cast_sub hpos]
    push_cast
    rfl
  simp only [SatCounter.maxVal, hb] at hle
  rw [decide_eq_false_iff_not, hcast]
  omega

end GshareBP

theorem exec_globalThreshold {σ σ1 : Sys} {c : Call} (he : exec σ c = .ok σ1) :
    σ1.bp.globalThreshold = σ.bp.globalThreshold := by
  cases c with
  | lookup tid a => simp [exec] at he; subst he; exact GshareBP.lookup_globalThreshold _ _ _
  | uncondBranch tid a => simp [exec] at he; subst he; rfl
  | btbUpdate tid a r => simp [exec] at he; subst he; rfl
  | update tid a taken r squashed =>
    simp only [exec] at he
    cases hu : σ.bp.update tid a taken r squashed with
    | error e => simp [hu] at he
    | ok s1 =>
      simp [hu] at he
      subst he
      exact GshareBP.update_globalThreshold hu
  | squash tid r =>
    simp only [exec] at he
    cases hs : σ.bp.squash tid r with
    | error e => simp [hs] at he
    | ok s1 =>
      simp [hs] at he
      subst he
      exact GshareBP.squash_globalThreshold hs

theorem execAll_globalThreshold {cs : List Call} {σ σ1 : Sys} (he : execAll σ cs = .ok σ1) :
    σ1.bp.globalThreshold = σ.bp.globalThreshold := by
  induction cs generalizing σ with
  | nil => simp [execAll] at he; subst he; rfl
  | cons c cs ih =>
    simp only [execAll] at he
    cases hc : exec σ c with
    | error e => simp [hc] at he
    | ok σ2 =>
      simp [hc] at he
      rw [ih he, exec_globalThreshold hc]

/-- Consequence of the counter range of the spec together with the threshold of the
constructor: in every state reached from a constructed predictor, `lookup` predicts
not-taken, because the threshold `2^(C-1) - 1` is the largest value a counter can hold. -/
theorem reachable_lookup_not_taken (p : GshareBPParams) (s0 : GshareBP) (cs : List Call)
    (σ : Sys) (hinit : GshareBP.construct p = .ok s0)
    (hrun : execAll ⟨s0, []⟩ cs = .ok σ) (tid : ThreadID) (a : Addr) :
    (σ.bp.lookup tid a).1 = false := by
  have hinv := execAll_countersInRange (GshareBP.construct_countersInRange hinit) hrun
  have ht : σ.bp.globalThreshold = (1 <<< (p.globalCtrBits - 1)) - 1 := by
    rw [execAll_globalThreshold hrun]
    exact (construct_ok_fields hinit).2.2.2.2.2.2.2.2
  exact GshareBP.lookup_not_taken_of_inRange hinv ht tid a

end Gshare

namespace Gshare

/-- Shifting in a `1` and then applying the mask of `btbUpdate` gives the same bits as
shifting in a `0`, for a mask that fits in 64 bits. -/
theorem taken_bit_cleared (h m : Nat) (hm : m < 2 ^ 64) :
    (((h <<< 1) ||| 1) &&& m) &&& (m &&& notULL1) = (h <<< 1) &&& m := by
  apply Nat.eq_of_testBit_eq
  intro i
  simp only [Nat.testBit_and, Nat.testBit_or, testBit_notULL1, Nat.testBit_shiftLeft]
  by_cases h0 : 1 ≤ i
  · by_cases h64 : i < 64
    · have h1 : (1 : Nat).testBit i = false :=
        testBit_eq_false_of_lt (n := 1) (by decide) h0
      simp [h0, h64, h1]
    · have hb : m.testBit i = false := testBit_eq_false_of_lt hm (Nat.le_of_not_lt h64)
      simp [hb]
  · have hge : ¬ i ≥ 1 := h0
    simp [h0, hge]

open GshareBP

/-- C11: for every state whose history mask fits in 64 bits, a taken prediction on
thread `tid` (`uncondBranch`, or a `lookup` that predicts taken) followed at once by
`btbUpdate` leaves `history[tid] = (h << 1) & historyMask`, where `h` is the history
before the prediction; this is the value `updateGlobalHistNotTaken` gives from `h`, and
so the value a `lookup` that predicts not-taken leaves. -/
theorem taken_then_btbUpdate (s : GshareBP) (tid : ThreadID) (pc address : Addr)
    (bp_history : Option BPHistory) (htid : tid < s.globalHistory.length)
    (hword : s.historyRegisterMask < 2 ^ 64) :
    (((s.uncondBranch tid pc).2.btbUpdate tid address bp_history).2.hist tid
        = (s.hist tid <<< 1) &&& s.historyRegisterMask) ∧
      ((s.lookup tid pc).1 = true →
        ((s.lookup tid pc).2.2.btbUpdate tid address bp_history).2.hist tid
          = (s.hist tid <<< 1) &&& s.historyRegisterMask) ∧
      ((s.updateGlobalHistNotTaken tid).hist tid
        = (s.hist tid <<< 1) &&& s.historyRegisterMask) ∧
      ((s.lookup tid pc).1 = false →
        (s.lookup tid pc).2.2.hist tid = (s.hist tid <<< 1) &&& s.historyRegisterMask) := by
  have hT : ((s.updateGlobalHistTaken tid).btbUpdate tid address bp_history).2.hist tid
      = (s.hist tid <<< 1) &&& s.historyRegisterMask := by
    have hlen : tid < (s.updateGlobalHistTaken tid).globalHistory.length := by
      simpa using htid
    have hm : (s.updateGlobalHistTaken tid).historyRegisterMask = s.historyRegisterMask := rfl
    simp only [btbUpdate]
    rw [hist_setHist_self _ _ _ hlen, hist_updateGlobalHistTaken s tid htid, hm]
    exact taken_bit_cleared _ _ hword
  refine ⟨hT, ?_, hist_updateGlobalHistNotTaken s tid htid, ?_⟩
  · intro hp
    rw [lookup_state, hp]
    exact hT
  · intro hp
    rw [lookup_state, hp]
    exact hist_updateGlobalHistNotTaken s tid htid

/-- Instance of C11 on `sampleBP`, thread 0: from `0b0101` the taken prediction gives
`0b1011` and `btbUpdate` turns it into `0b1010`. -/
theorem taken_then_btbUpdate_witness :
    (0 < sampleBP.globalHistory.length ∧ sampleBP.historyRegisterMask < 2 ^ 64) ∧
      ((((sampleBP.uncondBranch 0 12).2.btbUpdate 0 12 none).2.hist 0 = 10) ∧
        ((sampleBP.lookup 0 12).1 = true →
          ((sampleBP.lookup 0 12).2.2.btbUpdate 0 12 none).2.hist 0 = 10) ∧
        ((sampleBP.updateGlobalHistNotTaken 0).hist 0 = 10) ∧
        ((sampleBP.lookup 0 12).1 = false → (sampleBP.lookup 0 12).2.2.hist 0 = 10)) :=
  ⟨⟨by decide, by decide⟩,
    taken_then_btbUpdate sampleBP 0 12 12 none (by decide) (by decide)⟩

end Gshare

namespace Gshare
namespace Heap

theorem read_free_self (m : Heap) (a : Nat) : (m.free a).read a = none := by
  unfold read free
  simp only [List.get?_eq_getElem?, List.getElem?_set]
  by_cases h : a < m.cells.length <;> simp [h]

theorem read_free_ne (m : Heap) {a b : Nat} (h : b ≠ a) : (m.free a).read b = m.read b := by
  have hne : a ≠ b := fun e => h e.symm
  unfold read free
  simp only [List.get?_eq_getElem?, List.getElem?_set, hne, if_false]

end Heap

namespace GshareBP

theorem update_some_ok (s : GshareBP) (tid : ThreadID) (a : Addr) (taken : Bool)
    (r : BPHistory) (squashed : Bool) :
    ∃ s1, s.update tid a taken (some r) squashed = .ok s1 := by
  cases squashed <;> cases taken <;> simp [update]

theorem updateMem_live {s : GshareBP} {m : Heap} {addr : Nat} {r : BPHistory}
    (hlive : m.read addr = some r) (tid : ThreadID) (a : Addr) (taken : Bool)
    (squashed : Bool) :
    ∃ s1, s.update tid a taken (some r) squashed = .ok s1 ∧
      s.updateMem m tid a taken (some addr) squashed
        = { bp := s1, mem := if squashed then m else m.free addr, fault := none } := by
  obtain ⟨s1, hs1⟩ := update_some_ok s tid a taken r squashed
  refine ⟨s1, hs1, ?_⟩
  simp only [updateMem, hlive, hs1]
  cases squashed <;> simp

theorem squashMem_live {s : GshareBP} {m : Heap} {addr : Nat} {r : BPHistory}
    (hlive : m.read addr = some r) (tid : ThreadID) :
    s.squashMem m tid (some addr)
      = { bp := s.setHist tid r.globalHistory, mem := m.free addr, fault := none } := by
  simp only [squashMem, hlive, squash]

end GshareBP

open GshareBP

/-- C12: `update` called with a null record handle ends in the assertion fault, for
either value of `squashed` and of `taken`, and the call ends with the object (every
history register and every counter) and the record storage it started with; called with
a present record it does not fail. -/
theorem update_null_record (s : GshareBP) (m : Heap) (tid : ThreadID) (addr : Addr)
    (taken squashed : Bool) :
    s.update tid addr taken none squashed = .error .assertion ∧
      s.updateMem m tid addr taken none squashed
        = { bp := s, mem := m, fault := some .assertion } ∧
      (∀ r : BPHistory, ∃ s1, s.update tid addr taken (some r) squashed = .ok s1) ∧
      (∀ (a : Nat) (r : BPHistory), m.read a = some r →
        (s.updateMem m tid addr taken (some a) squashed).fault = none) := by
  refine ⟨rfl, rfl, fun r => update_some_ok s tid addr taken r squashed, ?_⟩
  intro a r hlive
  obtain ⟨s1, -, h⟩ := updateMem_live (s := s) hlive tid addr taken squashed
  rw [h]

/-- Instance of C12 on `sampleBP` and `sampleHeap`: the null handle trips the assertion,
the outstanding record at address 2 is accepted. -/
theorem update_null_record_witness :
    sampleHeap.read 2 = some ⟨10, true⟩ ∧
      sampleBP.update 1 64 true none false = .error .assertion ∧
      (sampleBP.updateMem sampleHeap 1 64 true none false).bp = sampleBP ∧
      (sampleBP.updateMem sampleHeap 1 64 true (some 2) false).fault = none :=
  ⟨by decide, (update_null_record sampleBP sampleHeap 1 64 true false).1,
    congrArg Outcome.bp (update_null_record sampleBP sampleHeap 1 64 true false).2.1,
    (update_null_record sampleBP sampleHeap 1 64 true false).2.2.2 2 ⟨10, true⟩ (by decide)⟩

end Gshare

namespace Gshare

open GshareBP

/-- C13: evaluation at the null handle. `squash` holds no assertion: it reads through
the null handle unchecked, which is the fault `nullDeref` and not the fail-fast
assertion, whereas `update` on the same null handle ends in the assertion fault. -/
theorem squash_null_handle_unchecked :
    sampleBP.squash 0 none = .error .nullDeref ∧
      sampleBP.squashMem sampleHeap 0 none
        = { bp := sampleBP, mem := sampleHeap, fault := some .nullDeref } ∧
      sampleBP.squash 0 none ≠ .error .assertion ∧
      sampleBP.update 0 64 false none false = .error .assertion := by
  refine ⟨rfl, rfl, ?_, rfl⟩
  simp [squash]

end Gshare

namespace Gshare

open GshareBP

/-- C14 as stated does not hold: the record of a `lookup` on the fresh predictor of the
worked example is still outstanding after `update` with `squashed = true`, which
returns before `delete history`, and a second resolving call on that record, here
`squash`, is carried out without any fault.  Where a record was released, as by `squash`
on `sampleHeap`, a second `squash` on it is not stopped by an assertion either: it reads
the released record through the stale handle. -/
theorem record_release_counterexample :
    (exampleFresh.lookupMem ⟨[]⟩ 0 64).2.1 = some 0 ∧
      ((exampleFresh.lookupMem ⟨[]⟩ 0 64).2.2.1.updateMem
          (exampleFresh.lookupMem ⟨[]⟩ 0 64).2.2.2 0 64 true (some 0) true).fault = none ∧
      ¬ (((exampleFresh.lookupMem ⟨[]⟩ 0 64).2.2.1.updateMem
          (exampleFresh.lookupMem ⟨[]⟩ 0 64).2.2.2 0 64 true (some 0) true).mem.read 0
            = none) ∧
      (((exampleFresh.lookupMem ⟨[]⟩ 0 64).2.2.1.updateMem
            (exampleFresh.lookupMem ⟨[]⟩ 0 64).2.2.2 0 64 true (some 0) true).bp.squashMem
          ((exampleFresh.lookupMem ⟨[]⟩ 0 64).2.2.1.updateMem
            (exampleFresh.lookupMem ⟨[]⟩ 0 64).2.2.2 0 64 true (some 0) true).mem
          0 (some 0)).fault = none ∧
      ((sampleBP.squashMem sampleHeap 0 (some 0)).bp.squashMem
          (sampleBP.squashMem sampleHeap 0 (some 0)).mem 0 (some 0)).fault
        = some .useAfterFree := by
  refine ⟨rfl, rfl, ?_, rfl, rfl⟩
  decide

/-- C14, amended: `update` with `squashed = false` and `squash`, called on an
outstanding record, return without a fault and release that record, so that it is no
longer outstanding, while every other record stays as it was.  No call checks whether a
record is outstanding: a later resolving call on the released record is not stopped by
an assertion, it reads the released record through the stale handle. -/
theorem resolving_calls_release (s : GshareBP) (m : Heap) (tid : ThreadID) (addr : Addr)
    (taken : Bool) (a : Nat) (r : BPHistory) (hlive : m.read a = some r) :
    ((s.updateMem m tid addr taken (some a) false).fault = none ∧
        (s.updateMem m tid addr taken (some a) false).mem.read a = none ∧
        (∀ b, b ≠ a →
          (s.updateMem m tid addr taken (some a) false).mem.read b = m.read b)) ∧
      ((s.squashMem m tid (some a)).fault = none ∧
        (s.squashMem m tid (some a)).mem.read a = none ∧
        (∀ b, b ≠ a → (s.squashMem m tid (some a)).mem.read b = m.read b)) ∧
      (∀ (s2 : GshareBP) (tid2 : ThreadID) (addr2 : Addr) (taken2 squashed2 : Bool),
        (s2.updateMem (s.updateMem m tid addr taken (some a) false).mem tid2 addr2 taken2
            (some a) squashed2).fault = some .useAfterFree ∧
          (s2.squashMem (s.updateMem m tid addr taken (some a) false).mem tid2
            (some a)).fault = some .useAfterFree ∧
          (s2.updateMem (s.squashMem m tid (some a)).mem tid2 addr2 taken2
            (some a) squashed2).fault = some .useAfterFree ∧
          (s2.squashMem (s.squashMem m tid (some a)).mem tid2
            (some a)).fault = some .useAfterFree) := by
  obtain ⟨s1, -, hu⟩ := updateMem_live (s := s) hlive tid addr taken false
  have hs := squashMem_live (s := s) hlive tid
  simp only [Bool.false_eq_true, if_false] at hu
  rw [hu, hs]
  refine ⟨⟨rfl, Heap.read_free_self m a, fun b hb => Heap.read_free_ne m hb⟩,
    ⟨rfl, Heap.read_free_self m a, fun b hb => Heap.read_free_ne m hb⟩, ?_⟩
  intro s2 tid2 addr2 taken2 squashed2
  simp [updateMem, squashMem, Heap.read_free_self]

/-- Instance of C14, amended, on `sampleBP` and `sampleHeap`: the outstanding record at
address 2 is released by either resolving call and the record at address 0 stays. -/
theorem resolving_calls_release_witness :
    sampleHeap.read 2 = some ⟨10, true⟩ ∧
      (sampleBP.updateMem sampleHeap 1 64 true (some 2) false).mem.read 2 = none ∧
      (sampleBP.squashMem sampleHeap 1 (some 2)).mem.read 2 = none ∧
      (sampleBP.squashMem sampleHeap 1 (some 2)).mem.read 0 = sampleHeap.read 0 :=
  ⟨by decide,
    (resolving_calls_release sampleBP sampleHeap 1 64 true 2 ⟨10, true⟩ (by decide)).1.2.1,
    (resolving_calls_release sampleBP sampleHeap 1 64 true 2 ⟨10, true⟩ (by decide)).2.1.2.1,
    (resolving_calls_release sampleBP sampleHeap 1 64 true 2 ⟨10, true⟩ (by decide)).2.1.2.2
      0 (by decide)⟩

end Gshare

namespace Gshare
namespace GshareBP

theorem hist_updateGlobalHistTaken_ne (s : GshareBP) {tid t : ThreadID} (h : tid ≠ t) :
    (s.updateGlobalHistTaken tid).hist t = s.hist t := by
  simp only [updateGlobalHistTaken, hist_setHist_ne _ _ _ _ h]

theorem hist_updateGlobalHistNotTaken_ne (s : GshareBP) {tid t : ThreadID} (h : tid ≠ t) :
    (s.updateGlobalHistNotTaken tid).hist t = s.hist t := by
  simp only [updateGlobalHistNotTaken, hist_setHist_ne _ _ _ _ h]

theorem hist_update_ne {s s1 : GshareBP} {tid t : ThreadID} (h : tid ≠ t) {a : Addr}
    {taken : Bool} {r : Option BPHistory} {squashed : Bool}
    (hu : s.update tid a taken r squashed = .ok s1) : s1.hist t = s.hist t := by
  cases r with
  | none => simp [update] at hu
  | some r =>
    cases squashed
    · cases taken <;> simp [update] at hu <;> subst hu <;> rfl
    · simp only [update, if_true] at hu
      have e := Except.ok.inj hu
      subst e
      simp only [hist_setHist_ne _ _ _ _ h]

theorem hist_squash_ne {s s1 : GshareBP} {tid t : ThreadID} (h : tid ≠ t)
    {r : Option BPHistory} (hs : s.squash tid r = .ok s1) : s1.hist t = s.hist t := by
  cases r with
  | none => simp [squash] at hs
  | some r =>
    have e : s.setHist tid r.globalHistory = s1 := Except.ok.inj hs
    subst e
    exact hist_setHist_ne _ _ _ _ h

end GshareBP

open GshareBP

/-- C15: for each of `lookup`, `uncondBranch`, `btbUpdate`, `update` and `squash` called
with thread `tid`, and every other thread `t ≠ tid`, `history[t]` is the same after the
call as before it. -/
theorem other_threads_untouched (s : GshareBP) (tid t : ThreadID) (address : Addr)
    (taken squashed : Bool) (bp_history : Option BPHistory) (hne : t ≠ tid) :
    (s.lookup tid address).2.2.hist t = s.hist t ∧
      (s.uncondBranch tid address).2.hist t = s.hist t ∧
      (s.btbUpdate tid address bp_history).2.hist t = s.hist t ∧
      (∀ s1, s.update tid address taken bp_history squashed = .ok s1 →
        s1.hist t = s.hist t) ∧
      (∀ s1, s.squash tid bp_history = .ok s1 → s1.hist t = s.hist t) := by
  have h : tid ≠ t := fun e => hne e.symm
  refine ⟨?_, hist_updateGlobalHistTaken_ne s h, hist_setHist_ne _ _ _ _ h,
    fun s1 hu => hist_update_ne h hu, fun s1 hs => hist_squash_ne h hs⟩
  rw [lookup_state]
  cases (s.lookup tid address).1
  · exact hist_updateGlobalHistNotTaken_ne s h
  · exact hist_updateGlobalHistTaken_ne s h

/-- Instance of C15 on `sampleBP`: calls on thread 0 leave `history[1] = 0b1010`. -/
theorem other_threads_untouched_witness :
    (1 : ThreadID) ≠ 0 ∧
      ((sampleBP.lookup 0 64).2.2.hist 1 = 10 ∧
        (sampleBP.uncondBranch 0 64).2.hist 1 = 10 ∧
        (sampleBP.btbUpdate 0 64 (some ⟨6, true⟩)).2.hist 1 = 10 ∧
        (∀ s1, sampleBP.update 0 64 true (some ⟨6, true⟩) true = .ok s1 →
          s1.hist 1 = 10) ∧
        (∀ s1, sampleBP.squash 0 (some ⟨6, true⟩) = .ok s1 → s1.hist 1 = 10)) :=
  ⟨by decide,
    other_threads_untouched sampleBP 0 1 64 true true (some ⟨6, true⟩) (by decide)⟩

end Gshare

namespace Gshare
namespace GshareBP

theorem ctr_setCtr_self (s : GshareBP) (idx : Nat) (c : SatCounter)
    (h : idx < s.globalCtrs.length) : (s.setCtr idx c).ctr idx = c := by
  simp [ctr, setCtr, List.getElem?_set, h]

theorem lookup_fst_setCtr (s : GshareBP) (idx : Nat) (c : SatCounter) (tid : ThreadID)
    (a : Addr) :
    ((s.setCtr idx c).lookup tid a).1
      = decide ((s.globalThreshold : Int)
          < ((s.setCtr idx c).ctr (s.hist tid &&& s.globalHistoryMask)).counter) := by
  rw [lookup_fst]
  rfl

end GshareBP

open GshareBP

/-- C16: for a table of `N = 2^k` counters, two history values that agree modulo `N`
select the same counter (`h1 & (N-1) = h2 & (N-1)`), so `update` with `squashed = false`
on a record whose snapshot is `h1` changes exactly the counter that a `lookup` at history
`h2` reads, and that `lookup` decides on the changed counter; with `tableSize = 4` the
histories `0b0001` and `0b0101` both select index 1. -/
theorem table_aliasing (s : GshareBP) (k h1 h2 : Nat) (tid tid2 : ThreadID)
    (a a2 : Addr) (taken p : Bool)
    (hmask : s.globalHistoryMask = 2 ^ k - 1) (hlen : s.globalCtrs.length = 2 ^ k)
    (hmod : h1 % 2 ^ k = h2 % 2 ^ k) (hh : s.hist tid = h2) :
    h1 &&& (2 ^ k - 1) = h2 &&& (2 ^ k - 1) ∧
      (∃ s1, s.update tid2 a2 taken (some ⟨h1, p⟩) false = .ok s1 ∧
        s1.ctr (h2 &&& s.globalHistoryMask)
          = (if taken then SatCounter.increment else SatCounter.decrement)
              (s.ctr (h2 &&& s.globalHistoryMask)) ∧
        (s1.lookup tid a).1
          = decide ((s.globalThreshold : Int)
              < ((if taken then SatCounter.increment else SatCounter.decrement)
                  (s.ctr (h2 &&& s.globalHistoryMask))).counter)) ∧
      (0b0001 &&& (4 - 1) = 1 ∧ 0b0101 &&& (4 - 1) = 1) := by
  have hidx : h1 &&& (2 ^ k - 1) = h2 &&& (2 ^ k - 1) := by
    rw [Nat.and_pow_two_sub_one_eq_mod, Nat.and_pow_two_sub_one_eq_mod, hmod]
  have hlt : h2 &&& s.globalHistoryMask < s.globalCtrs.length := by
    rw [hmask, hlen, Nat.and_pow_two_sub_one_eq_mod]
    exact Nat.mod_lt _ (Nat.two_pow_pos k)
  have hsame : h1 &&& s.globalHistoryMask = h2 &&& s.globalHistoryMask := by
    rw [hmask]; exact hidx
  refine ⟨hidx, ?_, by decide⟩
  cases taken
  · refine ⟨s.setCtr (h2 &&& s.globalHistoryMask)
      (s.ctr (h2 &&& s.globalHistoryMask)).decrement, ?_, ?_, ?_⟩
    · simp [update, hsame]
    · simpa using ctr_setCtr_self s _ _ hlt
    · rw [lookup_fst_setCtr, hh, ctr_setCtr_self s _ _ hlt]
      simp
  · refine ⟨s.setCtr (h2 &&& s.globalHistoryMask)
      (s.ctr (h2 &&& s.globalHistoryMask)).increment, ?_, ?_, ?_⟩
    · simp [update, hsame]
    · simpa using ctr_setCtr_self s _ _ hlt
    · rw [lookup_fst_setCtr, hh, ctr_setCtr_self s _ _ hlt]
      simp

/-- Instance of C16 on `sampleBP` (four counters, four history bits): a penalty through
a record with snapshot `0b0001` lowers counter 1 from 3 to 2, the counter that thread 0
reads at its history `0b0101`. -/
theorem table_aliasing_witness :
    (sampleBP.globalHistoryMask = 2 ^ 2 - 1 ∧ sampleBP.globalCtrs.length = 2 ^ 2 ∧
        1 % 2 ^ 2 = 5 % 2 ^ 2 ∧ sampleBP.hist 0 = 5) ∧
      (1 &&& (2 ^ 2 - 1) = 5 &&& (2 ^ 2 - 1) ∧
        (∃ s1, sampleBP.update 1 64 false (some ⟨1, true⟩) false = .ok s1 ∧
          s1.ctr (5 &&& sampleBP.globalHistoryMask)
            = (if false then SatCounter.increment else SatCounter.decrement)
                (sampleBP.ctr (5 &&& sampleBP.globalHistoryMask)) ∧
          (s1.lookup 0 68).1
            = decide ((sampleBP.globalThreshold : Int)
                < ((if false then SatCounter.increment else SatCounter.decrement)
                    (sampleBP.ctr (5 &&& sampleBP.globalHistoryMask))).counter)) ∧
        (0b0001 &&& (4 - 1) = 1 ∧ 0b0101 &&& (4 - 1) = 1)) :=
  ⟨⟨by decide, by decide, by decide, by decide⟩,
    table_aliasing sampleBP 2 1 5 0 1 68 64 false true (by decide) (by decide) (by decide)
      (by decide)⟩

end Gshare

namespace Gshare

open GshareBP

/-- C17: the branch address never influences the predictor: for every state and any two
addresses, `lookup` returns the same prediction, the same record and the same resulting
state, and `uncondBranch`, `btbUpdate` and `update` end in the same result, also when the
record storage is taken into account. -/
theorem address_never_read (s : GshareBP) (m : Heap) (tid : ThreadID) (a1 a2 : Addr)
    (taken squashed : Bool) (bp_history : Option BPHistory) (handle : Handle) :
    s.lookup tid a1 = s.lookup tid a2 ∧
      s.uncondBranch tid a1 = s.uncondBranch tid a2 ∧
      s.btbUpdate tid a1 bp_history = s.btbUpdate tid a2 bp_history ∧
      s.update tid a1 taken bp_history squashed = s.update tid a2 taken bp_history squashed ∧
      s.lookupMem m tid a1 = s.lookupMem m tid a2 ∧
      s.uncondBranchMem m tid a1 = s.uncondBranchMem m tid a2 ∧
      s.updateMem m tid a1 taken handle squashed = s.updateMem m tid a2 taken handle squashed :=
  ⟨rfl, rfl, rfl, rfl, rfl, rfl, rfl⟩

end Gshare

namespace Gshare
namespace GshareBP

theorem lookup_globalHistoryMask (s : GshareBP) (tid : ThreadID) (a : Addr) :
    (s.lookup tid a).2.2.globalHistoryMask = s.globalHistoryMask := by
  rw [lookup_state]
  cases (s.lookup tid a).1 <;> rfl

theorem update_table_shape {s s1 : GshareBP} {tid : ThreadID} {a : Addr} {taken : Bool}
    {r : Option BPHistory} {squashed : Bool}
    (hu : s.update tid a taken r squashed = .ok s1) :
    s1.globalCtrs.length = s.globalCtrs.length ∧
      s1.globalHistoryMask = s.globalHistoryMask := by
  cases r with
  | none => simp [update] at hu
  | some r =>
    cases squashed <;> cases taken <;> simp [update] at hu <;> subst hu <;>
      simp [setCtr, setHist]

theorem squash_table_shape {s s1 : GshareBP} {tid : ThreadID} {r : Option BPHistory}
    (hs : s.squash tid r = .ok s1) :
    s1.globalCtrs.length = s.globalCtrs.length ∧
      s1.globalHistoryMask = s.globalHistoryMask := by
  cases r with
  | none => simp [squash] at hs
  | some r => simp [squash] at hs; subst hs; exact ⟨rfl, rfl⟩

end GshareBP

theorem exec_table_shape {σ σ1 : Sys} {c : Call} (he : exec σ c = .ok σ1) :
    σ1.bp.globalCtrs.length = σ.bp.globalCtrs.length ∧
      σ1.bp.globalHistoryMask = σ.bp.globalHistoryMask := by
  cases c with
  | lookup tid a =>
    simp [exec] at he; subst he
    exact ⟨by rw [GshareBP.lookup_globalCtrs], GshareBP.lookup_globalHistoryMask _ _ _⟩
  | uncondBranch tid a => simp [exec] at he; subst he; exact ⟨rfl, rfl⟩
  | btbUpdate tid a r => simp [exec] at he; subst he; exact ⟨rfl, rfl⟩
  | update tid a taken r squashed =>
    simp only [exec] at he
    cases hu : σ.bp.update tid a taken r squashed with
    | error e => simp [hu] at he
    | ok s1 =>
      simp [hu] at he
      subst he
      exact GshareBP.update_table_shape hu
  | squash tid r =>
    simp only [exec] at he
    cases hs : σ.bp.squash tid r with
    | error e => simp [hs] at he
    | ok s1 =>
      simp [hs] at he
      subst he
      exact GshareBP.squash_table_shape hs

theorem execAll_table_shape {cs : List Call} {σ σ1 : Sys} (he : execAll σ cs = .ok σ1) :
    σ1.bp.globalCtrs.length = σ.bp.globalCtrs.length ∧
      σ1.bp.globalHistoryMask = σ.bp.globalHistoryMask := by
  induction cs generalizing σ with
  | nil => simp [execAll] at he; subst he; exact ⟨rfl, rfl⟩
  | cons c cs ih =>
    simp only [execAll] at he
    cases hc : exec σ c with
    | error e => simp [hc] at he
    | ok σ2 =>
      simp [hc] at he
      obtain ⟨h1, h2⟩ := ih he
      obtain ⟨h3, h4⟩ := exec_table_shape hc
      exact ⟨h1.trans h3, h2.trans h4⟩

theorem and_pred_lt (N h : Nat) (hN : 1 ≤ N) : h &&& (N - 1) < N :=
  Nat.lt_of_le_of_lt Nat.and_le_right (by omega)

open GshareBP

/-- C18: table accesses are always in bounds. For every table size `N ≥ 1` and every
value `h` the index `h & (N - 1)` is less than `N`; and in every state reached from a
predictor constructed with `N ≥ 1`, the index `h & tableIndexMask` that `lookup` (with
`h` a history register) and `update` (with `h` a snapshot) use lies inside the table, so
the read `ctr` finds the counter there and never takes its out-of-range branch. -/
theorem table_index_in_bounds (p : GshareBPParams) (s0 : GshareBP) (cs : List Call)
    (σ : Sys) (hN : 1 ≤ p.globalPredictorSize) (hinit : construct p = .ok s0)
    (hrun : execAll ⟨s0, []⟩ cs = .ok σ) :
    (∀ N h : Nat, 1 ≤ N → h &&& (N - 1) < N) ∧
      σ.bp.globalCtrs.length = p.globalPredictorSize ∧
      ∀ h : Nat, h &&& σ.bp.globalHistoryMask < σ.bp.globalCtrs.length ∧
        σ.bp.globalCtrs.get? (h &&& σ.bp.globalHistoryMask)
          = some (σ.bp.ctr (h &&& σ.bp.globalHistoryMask)) := by
  obtain ⟨-, -, -, hc, -, -, hm, -, -⟩ := construct_ok_fields hinit
  obtain ⟨hlen, hmask⟩ := execAll_table_shape hrun
  have hlen2 : σ.bp.globalCtrs.length = p.globalPredictorSize := by
    rw [hlen]; simp [hc]
  have hmask2 : σ.bp.globalHistoryMask = p.globalPredictorSize - 1 := by
    rw [hmask]; exact hm
  refine ⟨fun N h h1 => and_pred_lt N h h1, hlen2, ?_⟩
  intro h
  have hlt : h &&& σ.bp.globalHistoryMask < σ.bp.globalCtrs.length := by
    rw [hmask2, hlen2]
    exact and_pred_lt _ h hN
  refine ⟨hlt, ?_⟩
  have := ctr_of_lt σ.bp _ hlt
  simpa using this

/-- Instance of C18 on the worked example: after the run `exampleCalls` every index
`h & 15` lies inside the table of 16 counters. -/
theorem table_index_in_bounds_witness :
    (1 ≤ exampleParams.globalPredictorSize ∧ construct exampleParams = .ok exampleFresh ∧
        execAll ⟨exampleFresh, []⟩ exampleCalls
          = .ok ⟨exampleResolved, [⟨0, false⟩, ⟨0, false⟩, ⟨0, false⟩]⟩) ∧
      ((∀ N h : Nat, 1 ≤ N → h &&& (N - 1) < N) ∧
        exampleResolved.globalCtrs.length = 16 ∧
        ∀ h : Nat, h &&& exampleResolved.globalHistoryMask < exampleResolved.globalCtrs.length ∧
          exampleResolved.globalCtrs.get? (h &&& exampleResolved.globalHistoryMask)
            = some (exampleResolved.ctr (h &&& exampleResolved.globalHistoryMask))) :=
  ⟨⟨by decide, rfl, rfl⟩,
    table_index_in_bounds exampleParams exampleFresh exampleCalls
      ⟨exampleResolved, [⟨0, false⟩, ⟨0, false⟩, ⟨0, false⟩]⟩ (by decide) rfl rfl⟩

end Gshare

namespace Gshare
namespace GshareBP

theorem setHist_hist_self (s : GshareBP) (tid : ThreadID) : s.setHist tid (s.hist tid) = s := by
  have h : s.globalHistory.set tid (s.hist tid) = s.globalHistory := by
    apply List.ext_getElem?
    intro i
    rw [List.getElem?_set]
    by_cases hi : tid = i
    · subst hi
      by_cases hlt : tid < s.globalHistory.length
      · simp [hlt, hist, List.getD_eq_getElem?_getD, List.getElem?_eq_getElem hlt]
      · simp [hlt, List.getElem?_eq_none (Nat.le_of_not_lt hlt)]
    · simp [hi]
  simp only [setHist, h]

theorem updateGlobalHistTaken_eq_setHist (s : GshareBP) (tid : ThreadID) :
    ∃ v, s.updateGlobalHistTaken tid = s.setHist tid v :=
  ⟨_, setHist_setHist s tid _ _⟩

theorem updateGlobalHistNotTaken_eq_setHist (s : GshareBP) (tid : ThreadID) :
    ∃ v, s.updateGlobalHistNotTaken tid = s.setHist tid v :=
  ⟨_, setHist_setHist s tid _ _⟩

theorem lookup_eq_setHist (s : GshareBP) (tid : ThreadID) (a : Addr) :
    ∃ v, (s.lookup tid a).2.2 = s.setHist tid v := by
  rw [lookup_state]
  cases (s.lookup tid a).1
  · exact updateGlobalHistNotTaken_eq_setHist s tid
  · exact updateGlobalHistTaken_eq_setHist s tid

/-- Rolling back a record whose snapshot is the history before a prediction undoes any
change that was confined to `history[tid]`. -/
theorem squash_setHist_restores (s : GshareBP) (tid : ThreadID) (v : Nat) (r : BPHistory)
    (hr : r.globalHistory = s.hist tid) : (s.setHist tid v).squash tid (some r) = .ok s := by
  simp only [squash, setHist_setHist, hr, setHist_hist_self]

end GshareBP

theorem execAll_append (σ : Sys) (xs ys : List Call) :
    execAll σ (xs ++ ys)
      = match execAll σ xs with
        | .ok σ1 => execAll σ1 ys
        | .error e => .error e := by
  induction xs generalizing σ with
  | nil => rfl
  | cons c cs ih =>
    simp only [List.cons_append, execAll]
    cases exec σ c with
    | error e => rfl
    | ok σ2 => exact ih σ2

open GshareBP

/-- One prediction call, of either kind, changes the state in `history[tid]` only and
hands out a record whose snapshot is the history before the call. -/
theorem exec_prediction (s : GshareBP) (issued : List BPHistory) (tid : ThreadID)
    (q : Bool × Addr) :
    ∃ v r, exec ⟨s, issued⟩ (if q.1 then Call.uncondBranch tid q.2 else Call.lookup tid q.2)
        = .ok ⟨s.setHist tid v, r :: issued⟩ ∧ r.globalHistory = s.hist tid := by
  cases hq : q.1
  · obtain ⟨v, hv⟩ := lookup_eq_setHist s tid q.2
    refine ⟨v, (s.lookup tid q.2).2.1, ?_, ?_⟩
    · simp [exec, hv]
    · rw [lookup_record]
  · obtain ⟨v, hv⟩ := updateGlobalHistTaken_eq_setHist s tid
    refine ⟨v, (s.uncondBranch tid q.2).1, ?_, rfl⟩
    simp only [if_true, exec]
    rw [show (s.uncondBranch tid q.2).2 = s.setHist tid v from hv]

/-- Predictions followed by the squashes of their records, newest first, end in the
starting state. -/
theorem predictions_then_squashes (tid : ThreadID) (ps : List (Bool × Addr)) :
    ∀ (s : GshareBP) (issued : List BPHistory),
      ∃ σ recs, execAll ⟨s, issued⟩ (predictionCalls tid ps) = .ok σ ∧
        σ.issued = recs ++ issued ∧ recs.length = ps.length ∧
        execAll σ (squashCalls tid recs) = .ok ⟨s, σ.issued⟩ := by
  induction ps with
  | nil =>
    intro s issued
    exact ⟨⟨s, issued⟩, [], rfl, rfl, rfl, rfl⟩
  | cons q qs ih =>
    intro s issued
    obtain ⟨v, r, hstep, hr⟩ := exec_prediction s issued tid q
    obtain ⟨σ, recs, hrun, hiss, hlen, hback⟩ := ih (s.setHist tid v) (r :: issued)
    refine ⟨σ, recs ++ [r], ?_, ?_, ?_, ?_⟩
    · simp only [predictionCalls, List.map_cons, execAll, hstep]
      exact hrun
    · rw [hiss]; simp
    · simp [hlen]
    · have hsq : squashCalls tid (recs ++ [r])
          = squashCalls tid recs ++ [Call.squash tid (some r)] := by
        simp [squashCalls]
      rw [hsq, execAll_append, hback]
      simp only [execAll, exec, squash_setHist_restores s tid v r hr]

/-- C19: speculation is exactly reversible in LIFO order. For every state and every
number `k` of predictions on thread `tid` (`lookup` or `uncondBranch` in any mix), the
predictions succeed and return `k` records, and squashing these records in reverse order
of creation ends in the starting state: `history[tid]`, every counter and all the rest
are as before. For `k = 1`, `squash` right after `lookup` restores the state before the
`lookup`. -/
theorem speculation_reversible (s : GshareBP) (tid : ThreadID) (ps : List (Bool × Addr))
    (a : Addr) :
    (∃ σ, execAll ⟨s, []⟩ (predictionCalls tid ps) = .ok σ ∧
        σ.issued.length = ps.length ∧
        ∃ σ2, execAll σ (squashCalls tid σ.issued) = .ok σ2 ∧
          σ2.bp = s ∧ σ2.bp.hist tid = s.hist tid ∧ σ2.bp.globalCtrs = s.globalCtrs) ∧
      (s.lookup tid a).2.2.squash tid (some (s.lookup tid a).2.1) = .ok s ∧
      (s.uncondBranch tid a).2.squash tid (some (s.uncondBranch tid a).1) = .ok s := by
  refine ⟨?_, ?_, ?_⟩
  · obtain ⟨σ, recs, hrun, hiss, hlen, hback⟩ := predictions_then_squashes tid ps s []
    have hrecs : σ.issued = recs := by simpa using hiss
    refine ⟨σ, hrun, by rw [hrecs, hlen], ⟨s, σ.issued⟩, ?_, rfl, rfl, rfl⟩
    rw [hrecs]
    rw [hrecs] at hback
    exact hback
  · obtain ⟨v, hv⟩ := lookup_eq_setHist s tid a
    rw [hv]
    exact squash_setHist_restores s tid v _ (by rw [lookup_record])
  · obtain ⟨v, hv⟩ := updateGlobalHistTaken_eq_setHist s tid
    have hu : (s.uncondBranch tid a).2 = s.setHist tid v := hv
    rw [hu]
    exact squash_setHist_restores s tid v _ rfl

end Gshare

namespace Gshare

theorem testBit_shift_or_bit (x m : Nat) (b : Bool) (i : Nat) :
    (((x <<< 1) ||| b.toNat) &&& m).testBit i
      = (if i = 0 then b && m.testBit 0 else x.testBit (i - 1) && m.testBit i) := by
  rw [Nat.testBit_and, Nat.testBit_or, Nat.testBit_shiftLeft]
  by_cases hi : i = 0
  · subst hi
    cases b <;> simp
  · have h1 : 1 ≤ i := Nat.one_le_iff_ne_zero.2 hi
    have hb : b.toNat.testBit i = false :=
      testBit_eq_false_of_lt (n := 1) (by cases b <;> decide) h1
    have hge : i ≥ 1 := h1
    simp [hi, hb, hge]

namespace GshareBP

theorem hist_lookup (s : GshareBP) (tid : ThreadID) (a : Addr)
    (htid : tid < s.globalHistory.length) :
    (s.lookup tid a).2.2.hist tid
      = ((s.hist tid <<< 1) ||| (s.lookup tid a).1.toNat) &&& s.historyRegisterMask := by
  rw [lookup_state]
  cases (s.lookup tid a).1
  · simpa using hist_updateGlobalHistNotTaken s tid htid
  · simpa using hist_updateGlobalHistTaken s tid htid

theorem hist_update_squashed (s : GshareBP) (tid : ThreadID) (a : Addr) (taken : Bool)
    (r : BPHistory) (htid : tid < s.globalHistory.length) :
    ∃ s1, s.update tid a taken (some r) true = .ok s1 ∧
      s1.hist tid = ((r.globalHistory <<< 1) ||| taken.toNat) &&& s.historyRegisterMask := by
  refine ⟨(s.setHist tid ((r.globalHistory <<< 1) ||| taken.toNat)).setHist tid
      ((r.globalHistory <<< 1 ||| taken.toNat) &&& s.historyRegisterMask), ?_, ?_⟩
  · simp [update, hist_setHist_self, htid]
  · rw [hist_setHist_self _ _ _ (by simpa using htid)]

end GshareBP

open GshareBP

/-- C20: replay agrees with speculation. For the record `r` and the prediction `p` that
`lookup(tid, a)` returns, a following `update` with `taken = p` and `squashed = true`
leaves `history[tid]` equal to the value `lookup` left in it, and `update` with
`taken = not p` and `squashed = true` leaves a value with the same bits above bit 0
and, when the history width `H` is at least 1, the opposite bit 0. -/
theorem replay_agrees_with_speculation (s : GshareBP) (tid : ThreadID) (a : Addr)
    (htid : tid < s.globalHistory.length)
    (hmask : s.historyRegisterMask = mask s.globalHistoryBits) :
    (∃ s2, (s.lookup tid a).2.2.update tid a (s.lookup tid a).1
          (some (s.lookup tid a).2.1) true = .ok s2 ∧
        s2.hist tid = (s.lookup tid a).2.2.hist tid) ∧
      (∃ s3, (s.lookup tid a).2.2.update tid a (!(s.lookup tid a).1)
          (some (s.lookup tid a).2.1) true = .ok s3 ∧
        (∀ i, 0 < i →
          (s3.hist tid).testBit i = ((s.lookup tid a).2.2.hist tid).testBit i) ∧
        (1 ≤ s.globalHistoryBits →
          (s3.hist tid).testBit 0 = !((s.lookup tid a).2.2.hist tid).testBit 0)) := by
  have hlen : tid < (s.lookup tid a).2.2.globalHistory.length := by simpa using htid
  have hm : (s.lookup tid a).2.2.historyRegisterMask = s.historyRegisterMask :=
    lookup_historyRegisterMask s tid a
  have hrec : (s.lookup tid a).2.1.globalHistory = s.hist tid := by rw [lookup_record]
  have h1 := hist_lookup s tid a htid
  constructor
  · obtain ⟨s2, hs2, hh⟩ :=
      hist_update_squashed (s.lookup tid a).2.2 tid a (s.lookup tid a).1
        (s.lookup tid a).2.1 hlen
    exact ⟨s2, hs2, by rw [hh, hrec, hm, h1]⟩
  · obtain ⟨s3, hs3, hh⟩ :=
      hist_update_squashed (s.lookup tid a).2.2 tid a (!(s.lookup tid a).1)
        (s.lookup tid a).2.1 hlen
    refine ⟨s3, hs3, ?_, ?_⟩
    · intro i hi
      have hne : i ≠ 0 := Nat.pos_iff_ne_zero.1 hi
      rw [hh, hrec, hm, h1, testBit_shift_or_bit, testBit_shift_or_bit]
      simp [hne]
    · intro hH
      have hbit : s.historyRegisterMask.testBit 0 = true := by
        rw [hmask, mask_eq, Nat.testBit_two_pow_sub_one]
        simpa using hH
      rw [hh, hrec, hm, h1, testBit_shift_or_bit, testBit_shift_or_bit]
      simp [hbit]

/-- Instance of C20 on `sampleBP`, thread 0: `lookup` predicts not-taken and leaves
`0b1010`; the replay with `taken = false` leaves `0b1010`, the one with `taken = true`
leaves `0b1011`. -/
theorem replay_agrees_with_speculation_witness :
    (0 < sampleBP.globalHistory.length ∧
        sampleBP.historyRegisterMask = mask sampleBP.globalHistoryBits) ∧
      ((∃ s2, (sampleBP.lookup 0 64).2.2.update 0 64 (sampleBP.lookup 0 64).1
            (some (sampleBP.lookup 0 64).2.1) true = .ok s2 ∧
          s2.hist 0 = (sampleBP.lookup 0 64).2.2.hist 0) ∧
        (∃ s3, (sampleBP.lookup 0 64).2.2.update 0 64 (!(sampleBP.lookup 0 64).1)
            (some (sampleBP.lookup 0 64).2.1) true = .ok s3 ∧
          (∀ i, 0 < i →
            (s3.hist 0).testBit i = ((sampleBP.lookup 0 64).2.2.hist 0).testBit i) ∧
          (1 ≤ sampleBP.globalHistoryBits →
            (s3.hist 0).testBit 0 = !((sampleBP.lookup 0 64).2.2.hist 0).testBit 0))) :=
  ⟨⟨by decide, by decide⟩,
    replay_agrees_with_speculation sampleBP 0 64 (by decide) (by decide)⟩

end Gshare
